import Mathlib

/-!
Verification of the curve/time mapping core of the routine-data-visualization
repository (files `src/lib/geometry/Bezier.ts` and `src/lib/geometry/ParamMap.ts`).

Numbers are modelled as exact rationals (`ℚ`).  The single irrational
operation the source uses, `Math.hypot x y = sqrt (x^2 + y^2)`, is modelled
as an abstract parameter `hyp : ℚ → ℚ → ℚ` constrained by `HypModel`, a
bundle of properties the Euclidean norm satisfies.  Concrete evaluations
instantiate `hyp` with `ratHyp`, a computable function satisfying `HypModel`
that agrees with the Euclidean norm on every axis-aligned input (which is
all that concrete test curves below ever feed it).

JavaScript array reads that can be out of bounds (returning `undefined`, or
throwing when the `undefined` is then dereferenced) are modelled with
`Option`: `none` models an `undefined`/thrown outcome.
-/

set_option maxHeartbeats 4000000
set_option maxRecDepth 100000

namespace CurveKit

/-- JavaScript `Math.min` on rationals (no `NaN` over `ℚ`). -/
def rmin (a b : ℚ) : ℚ := if a ≤ b then a else b

/-- JavaScript `Math.max` on rationals. -/
def rmax (a b : ℚ) : ℚ := if a ≤ b then b else a

/-- JavaScript `Math.abs` on rationals. -/
def rabs (x : ℚ) : ℚ := if x < 0 then -x else x

/-- `Math.min` on integer indices. -/
def imin (a b : ℤ) : ℤ := if a ≤ b then a else b

/-- `Math.min` on natural indices. -/
def nmin (a b : ℕ) : ℕ := if a ≤ b then a else b

/-- 2D point with rational coordinates (source type `Vec2`). -/
structure Vec2 where
  x : ℚ
  y : ℚ
deriving DecidableEq, Repr

/-- Cubic Bézier segment given by its four control points (source type `Cubic`). -/
structure Cubic where
  p0 : Vec2
  p1 : Vec2
  p2 : Vec2
  p3 : Vec2
deriving DecidableEq, Repr

instance : Inhabited Vec2 := ⟨⟨0, 0⟩⟩

instance : Inhabited Cubic := ⟨⟨default, default, default, default⟩⟩

/-- Source `add` in Bezier.ts. -/
def add (a b : Vec2) : Vec2 := ⟨a.x + b.x, a.y + b.y⟩

/-- Source `sub` in Bezier.ts. -/
def sub (a b : Vec2) : Vec2 := ⟨a.x - b.x, a.y - b.y⟩

/-- Source `mul` in Bezier.ts. -/
def mul (a : Vec2) (k : ℚ) : Vec2 := ⟨a.x * k, a.y * k⟩

/-- Explicit Bernstein blend (source `cubicPoint` in Bezier.ts). -/
def cubicPoint (c : Cubic) (t : ℚ) : Vec2 :=
  let u := 1 - t
  let tt := t * t
  let uu := u * u
  let uuu := uu * u
  let ttt := tt * t
  ⟨uuu * c.p0.x + 3 * uu * t * c.p1.x + 3 * u * tt * c.p2.x + ttt * c.p3.x,
   uuu * c.p0.y + 3 * uu * t * c.p1.y + 3 * u * tt * c.p2.y + ttt * c.p3.y⟩

/-- Source `cubicDerivative` in Bezier.ts. -/
def cubicDerivative (c : Cubic) (t : ℚ) : Vec2 :=
  let u := 1 - t
  let a := mul (sub c.p1 c.p0) (3 * u * u)
  let b := mul (sub c.p2 c.p1) (6 * u * t)
  let d := mul (sub c.p3 c.p2) (3 * t * t)
  add (add a b) d

/-- Source `secondDerivative` in Bezier.ts. -/
def secondDerivative (c : Cubic) (t : ℚ) : Vec2 :=
  let u := 1 - t
  let a := mul (sub c.p2 (mul c.p1 2)) (6 * u)
  let b := mul (add c.p3 (add (mul c.p1 2) (mul c.p2 (-3)))) (6 * t)
  add a b

/-- Properties of `Math.hypot` (the Euclidean norm) that the development uses.
`Real.sqrt (x^2 + y^2)` satisfies all of them. -/
structure HypModel (hyp : ℚ → ℚ → ℚ) : Prop where
  nonneg : ∀ x y, 0 ≤ hyp x y
  eq_zero_iff : ∀ x y, hyp x y = 0 ↔ x = 0 ∧ y = 0
  on_axis : ∀ x, hyp x 0 = |x|
  on_axis_y : ∀ y, hyp 0 y = |y|

/-- Computable stand-in for `Math.hypot`, used for concrete evaluations.  It
agrees with the Euclidean norm whenever one argument is zero, which covers
every call made on the axis-aligned concrete inputs below, and it satisfies
`HypModel`. -/
def ratHyp (x y : ℚ) : ℚ := if y = 0 then rabs x else if x = 0 then rabs y else rabs x + rabs y

/-- Adaptive midpoint subdivision worker of source `sampleCubic` in Bezier.ts.
`fuel = 12 - depth`, so `depth < 12` in the source is `0 < fuel` here;
samples are accumulated as (parameter, point) pairs, pushed in lockstep
exactly as the two source arrays `ts`/`ps` are.  In the `fuel = 0` case the
source computes `err` and then fails the `depth < 12` test, landing in the
push branch; `err` is unused there, so it is not recomputed. -/
def sampleRec (hyp : ℚ → ℚ → ℚ) (c : Cubic) (maxErrPx : ℚ) (maxSeg : ℕ) :
    ℕ → ℚ → Vec2 → ℚ → Vec2 → List (ℚ × Vec2) → List (ℚ × Vec2)
  | 0, _, _, t1, p1, acc =>
    if acc.length > maxSeg then acc
    else acc ++ [(t1, p1)]
  | fuel + 1, t0, p0, t1, p1, acc =>
    if acc.length > maxSeg then acc
    else
      let tm := (t0 + t1) / 2
      let pm := cubicPoint c tm
      let cx := (p0.x + p1.x) / 2
      let cy := (p0.y + p1.y) / 2
      let err := hyp (pm.x - cx) (pm.y - cy)
      if err > maxErrPx then
        sampleRec hyp c maxErrPx maxSeg fuel tm pm t1 p1
          (sampleRec hyp c maxErrPx maxSeg fuel t0 p0 tm pm acc)
      else acc ++ [(t1, p1)]

/-- The (parameter, point) sample list of source `sampleCubic`: seeded with
`(0, p0)` and grown by `sampleRec` from the whole interval at depth 0. -/
def sampleList (hyp : ℚ → ℚ → ℚ) (c : Cubic) (maxErrPx : ℚ) (maxSeg : ℕ) : List (ℚ × Vec2) :=
  sampleRec hyp c maxErrPx maxSeg 12 0 c.p0 1 c.p3 [(0, c.p0)]

/-- Result record of source `sampleCubic`. -/
structure Sample where
  t : List ℚ
  pt : List Vec2
deriving DecidableEq, Repr

/-- Source `sampleCubic` in Bezier.ts (the two parallel result arrays are the
two projections of the pair list). -/
def sampleCubic (hyp : ℚ → ℚ → ℚ) (c : Cubic) (maxErrPx : ℚ) (maxSeg : ℕ) : Sample :=
  let prs := sampleList hyp c maxErrPx maxSeg
  ⟨prs.map Prod.fst, prs.map Prod.snd⟩

/-- Entries contributed by segment number `i` to the global LUT arrays in
source `buildLUT`: each local sample `(tl, p)` becomes the triple
`((i + tl)/segCount, p, i)`; the first sample is skipped when `i > 0`
(`if (i > 0 && k === 0) continue`).  `buildLUT` calls `sampleCubic` with its
default `maxSeg = 64`. -/
def segEntries (hyp : ℚ → ℚ → ℚ) (maxErrPx : ℚ) (segCount : ℕ) (i : ℕ) (seg : Cubic) :
    List (ℚ × Vec2 × ℕ) :=
  let smp := sampleList hyp seg maxErrPx 64
  let kept := if i = 0 then smp else smp.drop 1
  kept.map (fun pr => (((i : ℚ) + pr.1) / (segCount : ℚ), pr.2, i))

/-- Loop of source `buildLUT` over the segments, starting at index `i`. -/
def buildLUTFrom (hyp : ℚ → ℚ → ℚ) (maxErrPx : ℚ) (segCount : ℕ) :
    ℕ → List Cubic → List (ℚ × Vec2 × ℕ)
  | _, [] => []
  | i, seg :: rest =>
    segEntries hyp maxErrPx segCount i seg ++ buildLUTFrom hyp maxErrPx segCount (i + 1) rest

/-- Result record of source `buildLUT` (three index-aligned arrays). -/
structure LUTBase where
  t : List ℚ
  pt : List Vec2
  segIndex : List ℕ
deriving DecidableEq, Repr

/-- Source `buildLUT` in Bezier.ts. -/
def buildLUT (hyp : ℚ → ℚ → ℚ) (segments : List Cubic) (maxErrPx : ℚ) : LUTBase :=
  let es := buildLUTFrom hyp maxErrPx segments.length 0 segments
  ⟨es.map (fun e => e.1), es.map (fun e => e.2.1), es.map (fun e => e.2.2)⟩

/-- Worker for source `accumulateLengths`: `prev` is the previous point and
`acc` the running length. -/
def accFrom (hyp : ℚ → ℚ → ℚ) : Vec2 → ℚ → List Vec2 → List ℚ
  | _, _, [] => []
  | prev, acc, p :: rest =>
    let a := acc + hyp (p.x - prev.x) (p.y - prev.y)
    a :: accFrom hyp p a rest

/-- Source `accumulateLengths` in Bezier.ts: starts at `S = [0]` even for an
empty input and pushes one running sum per further point. -/
def accumulateLengths (hyp : ℚ → ℚ → ℚ) (pts : List Vec2) : List ℚ :=
  match pts with
  | [] => [0]
  | p :: rest => 0 :: accFrom hyp p 0 rest

/-- Source `clamp01` in ParamMap.ts. -/
def clamp01 (x : ℚ) : ℚ := rmin 1 (rmax 0 x)

/-- Source `clampRange` in ParamMap.ts. -/
def clampRange (x lo hi : ℚ) : ℚ := rmin hi (rmax lo x)

/-- JavaScript `a || b` for numbers: `a` is replaced by `b` exactly when `a`
is falsy; over `ℚ` the only falsy number is `0` (no `NaN`). -/
def jsOr (a b : ℚ) : ℚ := if a = 0 then b else a

/-- Body of the fitter loop in source `controlsToSegments` (ParamMap.ts,
adaptive-sharpness variant): one cubic from the anchor quadruple
`(p0, p1, p2, p3)`.  The source also computes `d1, d0, d2` (segment chord
lengths) but never uses them, so they are omitted here. -/
def segQuad (hyp : ℚ → ℚ → ℚ) (tight : ℚ) (p0 p1 p2 p3 : Vec2) : Cubic :=
  let b0 := p1
  let b3 := p2
  let v01 : Vec2 := ⟨p1.x - p0.x, p1.y - p0.y⟩
  let v12 : Vec2 := ⟨p2.x - p1.x, p2.y - p1.y⟩
  let v23 : Vec2 := ⟨p3.x - p2.x, p3.y - p2.y⟩
  let len01 := jsOr (hyp v01.x v01.y) 1
  let len12 := jsOr (hyp v12.x v12.y) 1
  let len23 := jsOr (hyp v23.x v23.y) 1
  let n01 : Vec2 := ⟨v01.x / len01, v01.y / len01⟩
  let n12 : Vec2 := ⟨v12.x / len12, v12.y / len12⟩
  let n23 : Vec2 := ⟨v23.x / len23, v23.y / len23⟩
  let dot1 := n01.x * n12.x + n01.y * n12.y
  let dot2 := n12.x * n23.x + n12.y * n23.y
  let sharpness1 := 1 - rabs dot1
  let sharpness2 := 1 - rabs dot2
  let scale1 := 0.4 + 0.6 * (1 - sharpness1)
  let scale2 := 0.4 + 0.6 * (1 - sharpness2)
  let s := (1 - clamp01 tight) / 6
  let b1 := add p1 (mul (sub p2 p0) (s * scale1))
  let b2 := sub p2 (mul (sub p3 p1) (s * scale2))
  ⟨b0, b1, b2, b3⟩

/-- Consecutive quadruples of a list: the quadruple starting at index `i`
for each `i ≤ length - 4`.  Models the indexing `P[i], P[i+1], P[i+2],
P[i+3]` of the fitter loop. -/
def windows4 : List Vec2 → List (Vec2 × Vec2 × Vec2 × Vec2)
  | a :: l =>
    match l with
    | b :: c :: d :: _ => (a, b, c, d) :: windows4 l
    | _ => []
  | [] => []

/-- Source `controlsToSegments` in ParamMap.ts: fewer than 2 anchors gives
`[]`; otherwise the endpoint-duplicated list `P = [pts[0], ...pts, last]`
is scanned by consecutive quadruples, one cubic per quadruple, with the
tension capped into `[0.15, 0.85]`. -/
def controlsToSegments (hyp : ℚ → ℚ → ℚ) (controls : List Vec2) (tension : ℚ) : List Cubic :=
  match controls with
  | [] => []
  | [_] => []
  | p :: rest =>
    let pts := p :: rest
    let P : List Vec2 := p :: pts ++ [pts.getLastD p]
    let tight := clampRange tension 0.15 0.85
    (windows4 P).map (fun q => segQuad hyp tight q.1 q.2.1 q.2.2.1 q.2.2.2)

/-- The global lookup table (source type `LUT` in types.ts). -/
structure LUT where
  t : List ℚ
  s : List ℚ
  segIndex : List ℕ
  pt : List Vec2
  length : ℚ
  segments : List Cubic
deriving DecidableEq, Repr

/-- Source type `CurveState`. -/
structure CurveState where
  controls : List Vec2
  tension : ℚ
deriving DecidableEq, Repr

/-- Source `buildParamLUT` in ParamMap.ts: fit segments, build the base LUT
with tolerance `0.75`, accumulate arc lengths, record `length = s[last]`. -/
def buildParamLUT (hyp : ℚ → ℚ → ℚ) (curve : CurveState) : LUT :=
  let segments := controlsToSegments hyp curve.controls curve.tension
  let lutBase := buildLUT hyp segments 0.75
  let s := accumulateLengths hyp lutBase.pt
  ⟨lutBase.t, s, lutBase.segIndex, lutBase.pt, s.getLastD 0, segments⟩

/-- Binary-search worker of source `lowerBound` with explicit fuel; the
source loop terminates because `hi - lo` shrinks, and `fuel = arr.length`
always suffices (proved below). -/
def lbGo (arr : List ℚ) (x : ℚ) : ℕ → ℕ → ℕ → ℕ
  | 0, lo, _ => lo
  | fuel + 1, lo, hi =>
    if lo < hi then
      let mid := (lo + hi) / 2
      if arr.getD mid 0 < x then lbGo arr x fuel (mid + 1) hi
      else lbGo arr x fuel lo mid
    else lo

/-- Source `lowerBound` in ParamMap.ts. -/
def lowerBound (arr : List ℚ) (x : ℚ) : ℕ :=
  lbGo arr x arr.length 0 arr.length

/-- Source `pointAtTime` in ParamMap.ts.  Array reads are modelled with
`Option`/`getD`: the two early-return branches read `lut.pt[idx']` which is
`undefined` (`none`) when the array is empty; in the interpolation branch
the reads of `s` and `t` are in bounds by the branch guards whenever the
parallel arrays have equal length, and the final `lut.segments[segIdx]`
read is `none` when `segIdx` falls outside the segment list (the source
would then crash dereferencing `undefined` inside `cubicPoint`). -/
def pointAtTime (lut : LUT) (time : ℚ) : Option Vec2 :=
  let tt := clamp01 (time / 86400)
  let targetS := tt * lut.length
  let idx := lowerBound lut.s targetS
  if idx = 0 then lut.pt.get? 0
  else if lut.s.length ≤ idx then lut.pt.get? (lut.s.length - 1)
  else
    let s0 := lut.s.getD (idx - 1) 0
    let s1 := lut.s.getD idx 0
    let t0 := lut.t.getD (idx - 1) 0
    let t1 := lut.t.getD idx 0
    let w := (targetS - s0) / rmax 1e-6 (s1 - s0)
    let g := t0 + w * (t1 - t0)
    let segIdx : ℤ := imin ((lut.segments.length : ℤ) - 1) ⌊g * (lut.segments.length : ℚ)⌋
    let localT := g * (lut.segments.length : ℚ) - (segIdx : ℚ)
    if segIdx < 0 then none
    else (lut.segments.get? segIdx.toNat).map (fun seg => cubicPoint seg (clamp01 localT))

/-- Coarse search of source `projectPointToCubic`: best of `p0` and the
`coarseSteps` uniform parameter samples; returns (bestT, bestPt, bestD2). -/
def coarseT (c : Cubic) (p : Vec2) (coarseSteps : ℕ) : ℚ × Vec2 × ℚ :=
  (List.range' 1 coarseSteps).foldl
    (fun (best : ℚ × Vec2 × ℚ) (i : ℕ) =>
      let t := (i : ℚ) / (coarseSteps : ℚ)
      let q := cubicPoint c t
      let d2 := (q.x - p.x) * (q.x - p.x) + (q.y - p.y) * (q.y - p.y)
      if d2 < best.2.2 then (t, q, d2) else best)
    (0, c.p0, (c.p0.x - p.x) * (c.p0.x - p.x) + (c.p0.y - p.y) * (c.p0.y - p.y))

/-- The Newton second-derivative term `hess` of source `projectPointToCubic`. -/
def hessAt (c : Cubic) (p : Vec2) (t : ℚ) : ℚ :=
  let q := cubicPoint c t
  let dq := cubicDerivative c t
  let d2q := secondDerivative c t
  2 * (d2q.x * (q.x - p.x) + d2q.y * (q.y - p.y) + dq.x * dq.x + dq.y * dq.y)

/-- One Newton iteration of source `projectPointToCubic`.  When
`|hess| < 1e-6` the source `break`s with the state unchanged; since the
loop state is just `bestT` and the test depends only on `bestT`, running
the remaining iterations on an unchanged state is the identity, so `break`
and early-return coincide.  `Number.isFinite(tNext)` always holds over `ℚ`
(`hess ≠ 0` in the division branch). -/
def newtonStep (c : Cubic) (p : Vec2) (bestT : ℚ) : ℚ :=
  let q := cubicPoint c bestT
  let dq := cubicDerivative c bestT
  let grad := 2 * (dq.x * (q.x - p.x) + dq.y * (q.y - p.y))
  let hess := hessAt c p bestT
  if rabs hess < 1e-6 then bestT
  else
    let tNext := bestT - grad / hess
    rmin 1 (rmax 0 tNext)

/-- Result record of source `projectPointToCubic`. -/
structure ProjResult where
  t : ℚ
  pt : Vec2
  dist2 : ℚ
deriving DecidableEq, Repr

/-- Source `projectPointToCubic` in Bezier.ts: coarse search then exactly
two Newton iterations, each clamped into `[0,1]`. -/
def projectPointToCubic (c : Cubic) (p : Vec2) (coarseSteps : ℕ) : ProjResult :=
  let t2 := newtonStep c p (newtonStep c p (coarseT c p coarseSteps).1)
  let bestPt := cubicPoint c t2
  ⟨t2, bestPt, (bestPt.x - p.x) * (bestPt.x - p.x) + (bestPt.y - p.y) * (bestPt.y - p.y)⟩

/-- Coarse scan of source `timeAtPoint`: fold over all LUT samples keeping
the index, squared distance and segment of the closest one.  The initial
`bestD2 = Infinity` is modelled as `none`, against which any finite `d2`
compares as smaller. -/
def coarseScan (lut : LUT) (p : Vec2) : ℕ × Option ℚ × ℕ :=
  (List.range lut.pt.length).foldl
    (fun st i =>
      let q := lut.pt.getD i default
      let d2 := (q.x - p.x) * (q.x - p.x) + (q.y - p.y) * (q.y - p.y)
      let better := match st.2.1 with
        | none => true
        | some b => decide (d2 < b)
      if better then (i, some d2, lut.segIndex.getD i 0) else st)
    (0, none, 0)

/-- While-loop of source `timeAtPoint` locating the bracketing index `j`;
fuelled with `lut.t.length`, which suffices since `j` grows by 1 while
staying below `length - 1`. -/
def wGo (t : List ℚ) (g : ℚ) : ℕ → ℕ → ℕ
  | 0, j => j
  | fuel + 1, j =>
    if j < t.length - 1 ∧ t.getD (j + 1) 0 < g then wGo t g fuel (j + 1) else j

/-- Source `timeAtPoint` in ParamMap.ts.  When the coarse scan leaves
`bestSeg` pointing outside `lut.segments` (only possible for a degenerate
table) the source dereferences `undefined` inside `projectPointToCubic` and
throws; that outcome is `none` here. -/
def timeAtPoint (lut : LUT) (p : Vec2) : Option ℚ :=
  let bestSeg := (coarseScan lut p).2.2
  match lut.segments.get? bestSeg with
  | none => none
  | some seg =>
    let pr := projectPointToCubic seg p 25
    let globalT := ((bestSeg : ℚ) + pr.t) / (lut.segments.length : ℚ)
    let j := wGo lut.t globalT lut.t.length 0
    let j1 := nmin (lut.t.length - 1) (j + 1)
    let w := (globalT - lut.t.getD j 0) / rmax 1e-6 (lut.t.getD j1 0 - lut.t.getD j 0)
    let s := lut.s.getD j 0 + w * (lut.s.getD j1 0 - lut.s.getD j 0)
    let frac := s / rmax 1e-6 lut.length
    some (clamp01 frac * 86400)

/-- The interpolated arc length `s` computed inside source `timeAtPoint`
(its local variable of that name, just before the final
`clamp01(s / Math.max(1e-6, lut.length)) * DAY`), exposed so the output
formula can be stated about the algorithm's own `s`.  `none` in exactly the
cases where `timeAtPoint` is `none`. -/
def timeAtPointS (lut : LUT) (p : Vec2) : Option ℚ :=
  let bestSeg := (coarseScan lut p).2.2
  match lut.segments.get? bestSeg with
  | none => none
  | some seg =>
    let pr := projectPointToCubic seg p 25
    let globalT := ((bestSeg : ℚ) + pr.t) / (lut.segments.length : ℚ)
    let j := wGo lut.t globalT lut.t.length 0
    let j1 := nmin (lut.t.length - 1) (j + 1)
    let w := (globalT - lut.t.getD j 0) / rmax 1e-6 (lut.t.getD j1 0 - lut.t.getD j 0)
    some (lut.s.getD j 0 + w * (lut.s.getD j1 0 - lut.s.getD j 0))

/-- Accumulator-free form of `sampleRec`, used both for reasoning and for
shallow concrete evaluation: it returns only the samples a call appends,
given the current global sample count `n` (the source guard reads only
`ts.length`, never the entries).  `sampleRec_eq_ext` proves the two forms
agree. -/
def extRec (hyp : ℚ → ℚ → ℚ) (c : Cubic) (maxErrPx : ℚ) (maxSeg : ℕ) :
    ℕ → ℚ → Vec2 → ℚ → Vec2 → ℕ → List (ℚ × Vec2)
  | 0, _, _, t1, p1, n =>
    if n > maxSeg then []
    else [(t1, p1)]
  | fuel + 1, t0, p0, t1, p1, n =>
    if n > maxSeg then []
    else
      let tm := (t0 + t1) / 2
      let pm := cubicPoint c tm
      let cx := (p0.x + p1.x) / 2
      let cy := (p0.y + p1.y) / 2
      let err := hyp (pm.x - cx) (pm.y - cy)
      if err > maxErrPx then
        let e1 := extRec hyp c maxErrPx maxSeg fuel t0 p0 tm pm n
        e1 ++ extRec hyp c maxErrPx maxSeg fuel tm pm t1 p1 (n + e1.length)
      else [(t1, p1)]

/-- Accumulator-free form of `sampleList` (see `sampleList_eq_ext`). -/
def sampleListExt (hyp : ℚ → ℚ → ℚ) (c : Cubic) (maxErrPx : ℚ) (maxSeg : ℕ) :
    List (ℚ × Vec2) :=
  (0, c.p0) :: extRec hyp c maxErrPx maxSeg 12 0 c.p0 1 c.p3 1

/-- `segEntries` with the accumulator-free sampler. -/
def segEntriesExt (hyp : ℚ → ℚ → ℚ) (maxErrPx : ℚ) (segCount : ℕ) (i : ℕ) (seg : Cubic) :
    List (ℚ × Vec2 × ℕ) :=
  let smp := sampleListExt hyp seg maxErrPx 64
  let kept := if i = 0 then smp else smp.drop 1
  kept.map (fun pr => (((i : ℚ) + pr.1) / (segCount : ℚ), pr.2, i))

/-- `buildLUTFrom` with the accumulator-free sampler. -/
def buildLUTFromExt (hyp : ℚ → ℚ → ℚ) (maxErrPx : ℚ) (segCount : ℕ) :
    ℕ → List Cubic → List (ℚ × Vec2 × ℕ)
  | _, [] => []
  | i, seg :: rest =>
    segEntriesExt hyp maxErrPx segCount i seg ++
      buildLUTFromExt hyp maxErrPx segCount (i + 1) rest

/-- Source type `NodeModel` in types.ts. -/
structure NodeModel where
  id : String
  time : ℚ
  label : String
  icon : String
  color : String
deriving DecidableEq, Repr

/-- The `{curve, nodes}` value persisted by the serialization test. -/
structure PersistedState where
  curve : CurveState
  nodes : List NodeModel
deriving DecidableEq, Repr

/-- Modelled from the spec: plain-data serialization of `{curve, nodes}`
(`JSON.stringify` in `serialization.test.ts`, a host builtin not in the
repository): every field is flattened into nested tuples and lists of
primitives. -/
def encodeState (st : PersistedState) :
    (List (ℚ × ℚ) × ℚ) × List (String × ℚ × String × String × String) :=
  ((st.curve.controls.map fun p => (p.x, p.y), st.curve.tension),
   st.nodes.map fun n => (n.id, n.time, n.label, n.icon, n.color))

/-- Modelled from the spec: plain-data deserialization of `{curve, nodes}`
(`JSON.parse` in `serialization.test.ts`), rebuilding the records from the
flattened form. -/
def decodeState (d : (List (ℚ × ℚ) × ℚ) × List (String × ℚ × String × String × String)) :
    PersistedState :=
  ⟨⟨d.1.1.map fun q => ⟨q.1, q.2⟩, d.1.2⟩,
   d.2.map fun n => ⟨n.1, n.2.1, n.2.2.1, n.2.2.2.1, n.2.2.2.2⟩⟩

/-! ### Equivalence of the accumulator-threading and accumulator-free samplers -/

theorem sampleRec_eq_ext (hyp : ℚ → ℚ → ℚ) (c : Cubic) (maxErrPx : ℚ) (maxSeg : ℕ)
    (fuel : ℕ) :
    ∀ (t0 : ℚ) (p0 : Vec2) (t1 : ℚ) (p1 : Vec2) (acc : List (ℚ × Vec2)),
      sampleRec hyp c maxErrPx maxSeg fuel t0 p0 t1 p1 acc =
        acc ++ extRec hyp c maxErrPx maxSeg fuel t0 p0 t1 p1 acc.length := by
  induction fuel with
  | zero =>
    intro t0 p0 t1 p1 acc
    simp only [sampleRec, extRec]
    split <;> simp
  | succ fuel ih =>
    intro t0 p0 t1 p1 acc
    simp only [sampleRec, extRec]
    split
    · simp
    · split
      · rw [ih, ih]
        simp [List.append_assoc, List.length_append]
      · simp

theorem sampleList_eq_ext (hyp : ℚ → ℚ → ℚ) (c : Cubic) (maxErrPx : ℚ) (maxSeg : ℕ) :
    sampleList hyp c maxErrPx maxSeg = sampleListExt hyp c maxErrPx maxSeg := by
  simp [sampleList, sampleListExt, sampleRec_eq_ext]

theorem segEntries_eq_ext (hyp : ℚ → ℚ → ℚ) (maxErrPx : ℚ) (segCount i : ℕ) (seg : Cubic) :
    segEntries hyp maxErrPx segCount i seg = segEntriesExt hyp maxErrPx segCount i seg := by
  simp [segEntries, segEntriesExt, sampleList_eq_ext]

theorem buildLUTFrom_eq_ext (hyp : ℚ → ℚ → ℚ) (maxErrPx : ℚ) (segCount : ℕ) :
    ∀ (i : ℕ) (segs : List Cubic),
      buildLUTFrom hyp maxErrPx segCount i segs = buildLUTFromExt hyp maxErrPx segCount i segs
  | _, [] => rfl
  | i, seg :: rest => by
    simp only [buildLUTFrom, buildLUTFromExt, segEntries_eq_ext,
      buildLUTFrom_eq_ext hyp maxErrPx segCount (i + 1) rest]

/-! ### Elementary facts about the clamps and `ratHyp` -/

theorem rabs_eq_abs (x : ℚ) : rabs x = |x| := by
  rw [rabs]
  split <;> [rw [abs_of_neg] <;> linarith; rw [abs_of_nonneg] <;> linarith]

theorem rmin_eq_min (a b : ℚ) : rmin a b = min a b := by
  rw [rmin, min_def]

theorem rmax_eq_max (a b : ℚ) : rmax a b = max a b := by
  rw [rmax, max_def]

theorem clamp01_nonneg (x : ℚ) : 0 ≤ clamp01 x := by
  rw [clamp01, rmin, rmax]
  split <;> split <;> first | linarith | norm_num

theorem clamp01_le_one (x : ℚ) : clamp01 x ≤ 1 := by
  rw [clamp01, rmin, rmax]
  split <;> split <;> first | linarith | norm_num

theorem clamp01_of_mem (x : ℚ) (h0 : 0 ≤ x) (h1 : x ≤ 1) : clamp01 x = x := by
  rw [clamp01, rmin, rmax]
  split <;> split <;> first | rfl | linarith

theorem ratHyp_model : HypModel ratHyp := by
  constructor
  · intro x y
    rw [ratHyp]
    split
    · rw [rabs_eq_abs]; exact abs_nonneg x
    · split
      · rw [rabs_eq_abs]; exact abs_nonneg y
      · rw [rabs_eq_abs, rabs_eq_abs]; positivity
  · intro x y
    rw [ratHyp]
    split
    · rename_i hy
      rw [rabs_eq_abs]
      simp [hy, abs_eq_zero]
    · split
      · rename_i hy hx
        rw [rabs_eq_abs]
        simp [hx, hy, abs_eq_zero]
      · rename_i hy hx
        rw [rabs_eq_abs, rabs_eq_abs]
        constructor
        · intro h
          exact absurd (by nlinarith [abs_pos.mpr hx, abs_pos.mpr hy] : (0:ℚ) < |x| + |y|)
            (by simp [h])
        · rintro ⟨rfl, rfl⟩
          simp
  · intro x
    rw [ratHyp, rabs_eq_abs]
    simp
  · intro y
    rw [ratHyp]
    split
    · rename_i hy
      rw [rabs_eq_abs]
      simp [hy]
    · rw [rabs_eq_abs]
      simp

theorem cubicPoint_zero (c : Cubic) : cubicPoint c 0 = c.p0 := by
  simp only [cubicPoint]
  norm_num

theorem cubicPoint_one (c : Cubic) : cubicPoint c 1 = c.p3 := by
  simp only [cubicPoint]
  norm_num

/-! ### Invariants of the adaptive sampler -/

theorem extRec_mem (hyp : ℚ → ℚ → ℚ) (c : Cubic) (maxErrPx : ℚ) (maxSeg : ℕ) (fuel : ℕ) :
    ∀ (t0 : ℚ) (p0 : Vec2) (t1 : ℚ) (p1 : Vec2) (n : ℕ), t0 < t1 →
      ∀ pr ∈ extRec hyp c maxErrPx maxSeg fuel t0 p0 t1 p1 n, t0 < pr.1 ∧ pr.1 ≤ t1 := by
  induction fuel with
  | zero =>
    intro t0 p0 t1 p1 n h01 pr hpr
    simp only [extRec] at hpr
    split at hpr
    · simp at hpr
    · simp only [List.mem_singleton] at hpr
      subst hpr
      exact ⟨h01, le_refl _⟩
  | succ fuel ih =>
    intro t0 p0 t1 p1 n h01 pr hpr
    simp only [extRec] at hpr
    split at hpr
    · simp at hpr
    · split at hpr
      · rw [List.mem_append] at hpr
        have hm0 : t0 < (t0 + t1) / 2 := by linarith
        have hm1 : (t0 + t1) / 2 < t1 := by linarith
        rcases hpr with hl | hr
        · have h := ih t0 p0 _ _ n hm0 pr hl
          exact ⟨h.1, le_trans h.2 (le_of_lt hm1)⟩
        · have h := ih _ _ t1 p1 _ hm1 pr hr
          exact ⟨lt_trans hm0 h.1, h.2⟩
      · simp only [List.mem_singleton] at hpr
        subst hpr
        exact ⟨h01, le_refl _⟩

theorem extRec_chain (hyp : ℚ → ℚ → ℚ) (c : Cubic) (maxErrPx : ℚ) (maxSeg : ℕ) (fuel : ℕ) :
    ∀ (t0 : ℚ) (p0 : Vec2) (t1 : ℚ) (p1 : Vec2) (n : ℕ), t0 < t1 →
      ((extRec hyp c maxErrPx maxSeg fuel t0 p0 t1 p1 n).map Prod.fst).Chain' (· < ·) := by
  induction fuel with
  | zero =>
    intro t0 p0 t1 p1 n h01
    simp only [extRec]
    split <;> simp
  | succ fuel ih =>
    intro t0 p0 t1 p1 n h01
    simp only [extRec]
    split
    · simp
    · split
      · have hm0 : t0 < (t0 + t1) / 2 := by linarith
        have hm1 : (t0 + t1) / 2 < t1 := by linarith
        rw [List.map_append, List.chain'_append]
        refine ⟨ih _ _ _ _ _ hm0, ih _ _ _ _ _ hm1, ?_⟩
        intro x hx y hy
        rw [List.getLast?_map] at hx
        rw [List.head?_map] at hy
        rcases Option.map_eq_some'.1 hx with ⟨pr, hpr, hx'⟩
        rcases Option.map_eq_some'.1 hy with ⟨pr', hpr', hy'⟩
        have h1 := (extRec_mem hyp c maxErrPx maxSeg fuel t0 p0 _ _ n hm0 pr
          (List.mem_of_mem_getLast? hpr)).2
        have h2 := (extRec_mem hyp c maxErrPx maxSeg fuel _ _ t1 p1 _ hm1 pr'
          (List.mem_of_mem_head? hpr')).1
        rw [← hx', ← hy']
        exact lt_of_le_of_lt h1 h2
      · simp

theorem extRec_on_curve (hyp : ℚ → ℚ → ℚ) (c : Cubic) (maxErrPx : ℚ) (maxSeg : ℕ)
    (fuel : ℕ) :
    ∀ (t0 : ℚ) (p0 : Vec2) (t1 : ℚ) (p1 : Vec2) (n : ℕ), p1 = cubicPoint c t1 →
      ∀ pr ∈ extRec hyp c maxErrPx maxSeg fuel t0 p0 t1 p1 n, pr.2 = cubicPoint c pr.1 := by
  induction fuel with
  | zero =>
    intro t0 p0 t1 p1 n hcv pr hpr
    simp only [extRec] at hpr
    split at hpr
    · simp at hpr
    · simp only [List.mem_singleton] at hpr
      subst hpr
      exact hcv
  | succ fuel ih =>
    intro t0 p0 t1 p1 n hcv pr hpr
    simp only [extRec] at hpr
    split at hpr
    · simp at hpr
    · split at hpr
      · rw [List.mem_append] at hpr
        rcases hpr with hl | hr
        · exact ih _ _ _ _ _ rfl pr hl
        · exact ih _ _ _ _ _ hcv pr hr
      · simp only [List.mem_singleton] at hpr
        subst hpr
        exact hcv

theorem extRec_getLast (hyp : ℚ → ℚ → ℚ) (c : Cubic) (maxErrPx : ℚ) (maxSeg : ℕ)
    (fuel : ℕ) :
    ∀ (t0 : ℚ) (p0 : Vec2) (t1 : ℚ) (p1 : Vec2) (n : ℕ),
      n + (extRec hyp c maxErrPx maxSeg fuel t0 p0 t1 p1 n).length ≤ maxSeg →
      (extRec hyp c maxErrPx maxSeg fuel t0 p0 t1 p1 n).getLast? = some (t1, p1) := by
  induction fuel with
  | zero =>
    intro t0 p0 t1 p1 n h
    by_cases hg : n > maxSeg
    · exfalso
      omega
    · simp [extRec, hg]
  | succ fuel ih =>
    intro t0 p0 t1 p1 n h
    by_cases hg : n > maxSeg
    · exfalso
      omega
    · simp only [extRec, if_neg hg] at h ⊢
      split at h
      · rename_i hc
        rw [if_pos hc]
        rw [List.getLast?_append]
        rw [List.length_append] at h
        have h2 := ih ((t0 + t1) / 2) (cubicPoint c ((t0 + t1) / 2)) t1 p1
          (n + (extRec hyp c maxErrPx maxSeg fuel t0 p0 ((t0 + t1) / 2)
            (cubicPoint c ((t0 + t1) / 2)) n).length) (by omega)
        rw [h2]
        rfl
      · rename_i hc
        rw [if_neg hc]
        rfl

theorem extRec_ne_nil (hyp : ℚ → ℚ → ℚ) (c : Cubic) (maxErrPx : ℚ) (maxSeg : ℕ)
    (fuel : ℕ) :
    ∀ (t0 : ℚ) (p0 : Vec2) (t1 : ℚ) (p1 : Vec2) (n : ℕ), n ≤ maxSeg →
      extRec hyp c maxErrPx maxSeg fuel t0 p0 t1 p1 n ≠ [] := by
  induction fuel with
  | zero =>
    intro t0 p0 t1 p1 n hn
    simp only [extRec]
    rw [if_neg (by omega)]
    exact List.cons_ne_nil _ _
  | succ fuel ih =>
    intro t0 p0 t1 p1 n hn
    simp only [extRec]
    rw [if_neg (by omega)]
    split
    · intro h
      rcases List.append_eq_nil.1 h with ⟨h1, _⟩
      exact ih _ _ _ _ n hn h1
    · exact List.cons_ne_nil _ _

theorem option_some_or {α : Type} (a : α) (o : Option α) : (some a).or o = some a := rfl

theorem sampleList_on_curve (hyp : ℚ → ℚ → ℚ) (c : Cubic) (maxErrPx : ℚ) (maxSeg : ℕ) :
    ∀ pr ∈ sampleList hyp c maxErrPx maxSeg, pr.2 = cubicPoint c pr.1 := by
  rw [sampleList_eq_ext, sampleListExt]
  intro pr hpr
  rcases List.mem_cons.1 hpr with h | h
  · subst h
    exact (cubicPoint_zero c).symm
  · exact extRec_on_curve hyp c maxErrPx maxSeg 12 _ _ _ _ _ (cubicPoint_one c).symm pr h

theorem sampleList_chain (hyp : ℚ → ℚ → ℚ) (c : Cubic) (maxErrPx : ℚ) (maxSeg : ℕ) :
    ((sampleList hyp c maxErrPx maxSeg).map Prod.fst).Chain' (· < ·) := by
  rw [sampleList_eq_ext, sampleListExt]
  rw [List.map_cons, List.chain'_cons']
  constructor
  · intro y hy
    rw [List.head?_map] at hy
    rcases Option.map_eq_some'.1 hy with ⟨pr, hpr, hy'⟩
    have h := (extRec_mem hyp c maxErrPx maxSeg 12 0 c.p0 1 c.p3 1 (by norm_num) pr
      (List.mem_of_mem_head? hpr)).1
    rw [← hy']
    exact h
  · exact extRec_chain hyp c maxErrPx maxSeg 12 0 c.p0 1 c.p3 1 (by norm_num)

theorem sampleList_mem_bounds (hyp : ℚ → ℚ → ℚ) (c : Cubic) (maxErrPx : ℚ) (maxSeg : ℕ) :
    ∀ pr ∈ sampleList hyp c maxErrPx maxSeg, 0 ≤ pr.1 ∧ pr.1 ≤ 1 := by
  rw [sampleList_eq_ext, sampleListExt]
  intro pr hpr
  rcases List.mem_cons.1 hpr with h | h
  · subst h
    norm_num
  · have h' := extRec_mem hyp c maxErrPx maxSeg 12 0 c.p0 1 c.p3 1 (by norm_num) pr h
    exact ⟨le_of_lt h'.1, h'.2⟩

theorem sampleList_head (hyp : ℚ → ℚ → ℚ) (c : Cubic) (maxErrPx : ℚ) (maxSeg : ℕ) :
    (sampleList hyp c maxErrPx maxSeg).head? = some (0, c.p0) := by
  rw [sampleList_eq_ext, sampleListExt]
  rfl

theorem sampleList_ne_nil (hyp : ℚ → ℚ → ℚ) (c : Cubic) (maxErrPx : ℚ) (maxSeg : ℕ) :
    sampleList hyp c maxErrPx maxSeg ≠ [] := by
  rw [sampleList_eq_ext, sampleListExt]
  exact List.cons_ne_nil _ _

theorem sampleList_getLast (hyp : ℚ → ℚ → ℚ) (c : Cubic) (maxErrPx : ℚ) (maxSeg : ℕ)
    (h : (sampleList hyp c maxErrPx maxSeg).length ≤ maxSeg) :
    (sampleList hyp c maxErrPx maxSeg).getLast? = some (1, c.p3) := by
  rw [sampleList_eq_ext, sampleListExt] at h ⊢
  have h' : 1 + (extRec hyp c maxErrPx maxSeg 12 0 c.p0 1 c.p3 1).length ≤ maxSeg := by
    simp only [List.length_cons] at h
    omega
  have hl := extRec_getLast hyp c maxErrPx maxSeg 12 0 c.p0 1 c.p3 1 h'
  rw [← List.singleton_append, List.getLast?_append, hl]
  rfl

/-! ### Structure of the fitted segment list -/

theorem segQuad_p0 (hyp : ℚ → ℚ → ℚ) (tight : ℚ) (p0 p1 p2 p3 : Vec2) :
    (segQuad hyp tight p0 p1 p2 p3).p0 = p1 := rfl

theorem segQuad_p3 (hyp : ℚ → ℚ → ℚ) (tight : ℚ) (p0 p1 p2 p3 : Vec2) :
    (segQuad hyp tight p0 p1 p2 p3).p3 = p2 := rfl

theorem windows4_length : ∀ L : List Vec2, (windows4 L).length = L.length - 3 := by
  intro L
  induction L with
  | nil => rfl
  | cons a l ih =>
    match l with
    | [] => rfl
    | [_] => rfl
    | [_, _] => rfl
    | b :: c :: d :: l4 =>
      simp only [windows4, List.length_cons] at ih ⊢
      omega

theorem windows4_chain : ∀ L : List Vec2,
    List.Chain' (fun w1 w2 => w1.2.2.1 = w2.2.1)
      ((windows4 L : List (Vec2 × Vec2 × Vec2 × Vec2))) := by
  intro L
  induction L with
  | nil => exact List.chain'_nil
  | cons a l ih =>
    match l with
    | [] => simp [windows4]
    | [_] => simp [windows4]
    | [_, _] => simp [windows4]
    | b :: c :: d :: l4 =>
      rw [windows4]
      rw [List.chain'_cons']
      refine ⟨?_, ih⟩
      intro y hy
      match l4 with
      | [] => simp [windows4] at hy
      | e :: l5 =>
        simp only [windows4, List.head?_cons, Option.mem_def, Option.some_inj] at hy
        subst hy
        rfl

theorem windows4_last_dup : ∀ (l : List Vec2) (x y z : Vec2), ∃ w,
    (windows4 (x :: y :: l ++ [z, z])).getLast? = some w ∧ w.2.2.1 = z := by
  intro l
  induction l with
  | nil =>
    intro x y z
    exact ⟨(x, y, z, z), rfl, rfl⟩
  | cons e l' ih =>
    intro x y z
    rcases ih y e z with ⟨w, hw, hz⟩
    refine ⟨w, ?_, hz⟩
    have hcons : windows4 (x :: y :: (e :: l') ++ [z, z]) =
        (x, y, e, (l' ++ [z, z]).headD z) :: windows4 (y :: e :: l' ++ [z, z]) := by
      cases l' <;> rfl
    rw [hcons, ← List.singleton_append, List.getLast?_append, hw]
    rfl

theorem controlsToSegments_eq (hyp : ℚ → ℚ → ℚ) (p q : Vec2) (rest : List Vec2)
    (tension : ℚ) :
    controlsToSegments hyp (p :: q :: rest) tension =
      (windows4 (p :: (p :: q :: rest) ++ [(p :: q :: rest).getLastD p])).map
        (fun w => segQuad hyp (clampRange tension 0.15 0.85) w.1 w.2.1 w.2.2.1 w.2.2.2) := by
  rfl

theorem controlsToSegments_length (hyp : ℚ → ℚ → ℚ) (p q : Vec2) (rest : List Vec2)
    (tension : ℚ) :
    (controlsToSegments hyp (p :: q :: rest) tension).length = rest.length + 1 := by
  rw [controlsToSegments_eq, List.length_map, windows4_length]
  simp

theorem controlsToSegments_ne_nil (hyp : ℚ → ℚ → ℚ) (p q : Vec2) (rest : List Vec2)
    (tension : ℚ) :
    controlsToSegments hyp (p :: q :: rest) tension ≠ [] := by
  intro h
  have := controlsToSegments_length hyp p q rest tension
  rw [h] at this
  simp at this

theorem controlsToSegments_head (hyp : ℚ → ℚ → ℚ) (p q : Vec2) (rest : List Vec2)
    (tension : ℚ) :
    (controlsToSegments hyp (p :: q :: rest) tension).head?.map Cubic.p0 = some p := by
  rw [controlsToSegments_eq, List.head?_map]
  match rest with
  | [] => rfl
  | e :: rest' => rfl

theorem controlsToSegments_last (hyp : ℚ → ℚ → ℚ) (p q : Vec2) (rest : List Vec2)
    (tension : ℚ) :
    (controlsToSegments hyp (p :: q :: rest) tension).getLast?.map Cubic.p3 =
      some ((q :: rest).getLastD q) := by
  rw [controlsToSegments_eq, List.getLast?_map]
  rcases List.eq_nil_or_concat (q :: rest) with h | ⟨front, z, hz⟩
  · simp at h
  · have hlast : ∀ d : Vec2, (q :: rest).getLastD d = z := by
      intro d
      rw [hz]
      simp [List.getLastD_concat]
    have hshape : (p :: (p :: q :: rest) ++ [(p :: q :: rest).getLastD p]) =
        p :: p :: front ++ [z, z] := by
      have h2 : (p :: q :: rest).getLastD p = z := by
        rw [List.getLastD_cons]
        exact hlast p
      rw [h2]
      have h3 : (p :: q :: rest) = p :: front ++ [z] := by
        rw [hz]
        simp
      rw [h3]
      simp
    rw [hshape]
    rcases windows4_last_dup front p p z with ⟨w, hw, hwz⟩
    rw [hw]
    rw [hlast q]
    simp [segQuad_p3, hwz]

theorem controlsToSegments_adj (hyp : ℚ → ℚ → ℚ) (controls : List Vec2) (tension : ℚ) :
    List.Chain' (fun s1 s2 => s1.p3 = s2.p0) (controlsToSegments hyp controls tension) := by
  match controls with
  | [] => exact List.chain'_nil
  | [_] => exact List.chain'_nil
  | p :: q :: rest =>
    rw [controlsToSegments_eq]
    rw [List.chain'_map]
    apply List.Chain'.imp ?_ (windows4_chain _)
    intro w1 w2 h
    rw [segQuad_p3, segQuad_p0, h]

/-! ### Structure of the assembled global LUT entries -/

theorem segEntries_mem (hyp : ℚ → ℚ → ℚ) (maxErrPx : ℚ) (segCount i : ℕ) (seg : Cubic) :
    ∀ e ∈ segEntries hyp maxErrPx segCount i seg, ∃ tl : ℚ, 0 ≤ tl ∧ tl ≤ 1 ∧
      e = ((((i : ℚ) + tl) / (segCount : ℚ)), cubicPoint seg tl, i) := by
  intro e he
  simp only [segEntries, List.mem_map] at he
  rcases he with ⟨pr, hpr, hre⟩
  have hmem : pr ∈ sampleList hyp seg maxErrPx 64 := by
    by_cases hi : i = 0
    · simpa [hi] using hpr
    · rw [if_neg hi] at hpr
      exact List.mem_of_mem_drop hpr
  have hb := sampleList_mem_bounds hyp seg maxErrPx 64 pr hmem
  have hc := sampleList_on_curve hyp seg maxErrPx 64 pr hmem
  refine ⟨pr.1, hb.1, hb.2, ?_⟩
  rw [← hre, ← hc]

theorem buildLUTFrom_mem (hyp : ℚ → ℚ → ℚ) (maxErrPx : ℚ) (segCount : ℕ) :
    ∀ (segs : List Cubic) (i : ℕ), ∀ e ∈ buildLUTFrom hyp maxErrPx segCount i segs,
      ∃ (j : ℕ) (hj : j < segs.length) (tl : ℚ), 0 ≤ tl ∧ tl ≤ 1 ∧
        e = ((((i + j : ℕ) : ℚ) + tl) / (segCount : ℚ),
             cubicPoint (segs.get ⟨j, hj⟩) tl, i + j) := by
  intro segs
  induction segs with
  | nil =>
    intro i e he
    simp [buildLUTFrom] at he
  | cons seg rest ih =>
    intro i e he
    rw [buildLUTFrom, List.mem_append] at he
    rcases he with hl | hr
    · rcases segEntries_mem hyp maxErrPx segCount i seg e hl with ⟨tl, h0, h1, hre⟩
      refine ⟨0, by simp, tl, h0, h1, ?_⟩
      simpa using hre
    · rcases ih (i + 1) e hr with ⟨j, hj, tl, h0, h1, hre⟩
      refine ⟨j + 1, by simpa using Nat.succ_lt_succ hj, tl, h0, h1, ?_⟩
      have hcast : ((i + 1 + j : ℕ) : ℚ) = ((i + (j + 1) : ℕ) : ℚ) := by
        push_cast
        ring
      have hidx : i + 1 + j = i + (j + 1) := by omega
      rw [hre, hcast, hidx]
      rfl

theorem segEntries_ne_nil (hyp : ℚ → ℚ → ℚ) (maxErrPx : ℚ) (segCount i : ℕ) (seg : Cubic) :
    segEntries hyp maxErrPx segCount i seg ≠ [] := by
  have hlen : 2 ≤ (sampleList hyp seg maxErrPx 64).length := by
    rw [sampleList_eq_ext, sampleListExt, List.length_cons]
    have := extRec_ne_nil hyp seg maxErrPx 64 12 0 seg.p0 1 seg.p3 1 (by norm_num)
    have hpos : 0 < (extRec hyp seg maxErrPx 64 12 0 seg.p0 1 seg.p3 1).length :=
      List.length_pos.2 this
    omega
  simp only [segEntries, ne_eq, List.map_eq_nil]
  by_cases hi : i = 0
  · rw [if_pos hi]
    intro h
    rw [h] at hlen
    simp at hlen
  · rw [if_neg hi]
    intro h
    have := List.length_drop 1 (sampleList hyp seg maxErrPx 64)
    rw [h] at this
    simp at this
    omega

theorem buildLUTFrom_ne_nil (hyp : ℚ → ℚ → ℚ) (maxErrPx : ℚ) (segCount i : ℕ)
    (seg : Cubic) (rest : List Cubic) :
    buildLUTFrom hyp maxErrPx segCount i (seg :: rest) ≠ [] := by
  rw [buildLUTFrom]
  intro h
  rcases List.append_eq_nil.1 h with ⟨h1, _⟩
  exact segEntries_ne_nil hyp maxErrPx segCount i seg h1

theorem buildLUTFrom_head (hyp : ℚ → ℚ → ℚ) (maxErrPx : ℚ) (segCount : ℕ)
    (seg : Cubic) (rest : List Cubic) :
    (buildLUTFrom hyp maxErrPx segCount 0 (seg :: rest)).head? = some (0, seg.p0, 0) := by
  rw [buildLUTFrom, List.head?_append]
  have h : (segEntries hyp maxErrPx segCount 0 seg).head? = some (0, seg.p0, 0) := by
    simp only [segEntries]
    rw [if_pos trivial, List.head?_map, sampleList_head, Option.map_some']
    norm_num
  rw [h]
  rfl

theorem segEntries_getLast (hyp : ℚ → ℚ → ℚ) (maxErrPx : ℚ) (segCount i : ℕ) (seg : Cubic)
    (htr : (sampleList hyp seg maxErrPx 64).length ≤ 64) :
    (segEntries hyp maxErrPx segCount i seg).getLast? =
      some ((((i + 1 : ℕ) : ℚ)) / (segCount : ℚ), seg.p3, i) := by
  have hlast := sampleList_getLast hyp seg maxErrPx 64 htr
  have hkept : (if i = 0 then sampleList hyp seg maxErrPx 64
      else (sampleList hyp seg maxErrPx 64).drop 1).getLast? = some (1, seg.p3) := by
    by_cases hi : i = 0
    · rw [if_pos hi]
      exact hlast
    · rw [if_neg hi]
      rw [sampleList_eq_ext, sampleListExt] at hlast ⊢
      rw [List.drop_one, List.tail_cons]
      rw [← List.singleton_append, List.getLast?_append] at hlast
      have hne := extRec_ne_nil hyp seg maxErrPx 64 12 0 seg.p0 1 seg.p3 1 (by norm_num)
      cases hcase : (extRec hyp seg maxErrPx 64 12 0 seg.p0 1 seg.p3 1).getLast? with
      | none =>
        rw [List.getLast?_eq_none_iff] at hcase
        exact absurd hcase hne
      | some v =>
        rw [hcase] at hlast
        rw [option_some_or] at hlast
        exact hlast

  simp only [segEntries, List.getLast?_map, hkept]
  simp only [Option.map_some']
  have : (i : ℚ) + 1 = ((i + 1 : ℕ) : ℚ) := by push_cast; ring
  rw [this]

theorem buildLUTFrom_getLast (hyp : ℚ → ℚ → ℚ) (maxErrPx : ℚ) (segCount : ℕ) :
    ∀ (segs : List Cubic) (i : ℕ) (hne : segs ≠ [])
      (htr : ∀ seg ∈ segs, (sampleList hyp seg maxErrPx 64).length ≤ 64),
      (buildLUTFrom hyp maxErrPx segCount i segs).getLast? =
        some ((((i + segs.length : ℕ) : ℚ)) / (segCount : ℚ),
          (segs.getLast hne).p3, i + segs.length - 1) := by
  intro segs
  induction segs with
  | nil =>
    intro i hne htr
    exact absurd rfl hne
  | cons seg rest ih =>
    intro i hne htr
    rw [buildLUTFrom, List.getLast?_append]
    cases rest with
    | nil =>
      have h := segEntries_getLast hyp maxErrPx segCount i seg (htr seg (by simp))
      simp only [buildLUTFrom, List.getLast?_nil, Option.none_or]
      rw [h]
      rfl
    | cons seg2 rest2 =>
      have h := ih (i + 1) (List.cons_ne_nil _ _)
        (fun s hs => htr s (List.mem_cons_of_mem _ hs))
      rw [h, option_some_or]
      have hlen : i + 1 + (seg2 :: rest2).length = i + (seg :: seg2 :: rest2).length := by
        simp only [List.length_cons]
        omega
      have hgl : (seg2 :: rest2).getLast (List.cons_ne_nil _ _) =
          (seg :: seg2 :: rest2).getLast hne := (List.getLast_cons _).symm
      rw [hlen, hgl]

theorem buildLUTFrom_segIndex_lt (hyp : ℚ → ℚ → ℚ) (maxErrPx : ℚ) (segCount : ℕ)
    (segs : List Cubic) (i : ℕ) :
    ∀ e ∈ buildLUTFrom hyp maxErrPx segCount i segs, e.2.2 < i + segs.length := by
  intro e he
  rcases buildLUTFrom_mem hyp maxErrPx segCount segs i e he with ⟨j, hj, tl, _, _, hre⟩
  rw [hre]
  simpa using Nat.add_lt_add_left hj i

theorem buildLUTFrom_t_nonneg (hyp : ℚ → ℚ → ℚ) (maxErrPx : ℚ) (segCount : ℕ)
    (segs : List Cubic) (i : ℕ) :
    ∀ e ∈ buildLUTFrom hyp maxErrPx segCount i segs, ((i : ℚ)) / (segCount : ℚ) ≤ e.1 := by
  intro e he
  rcases buildLUTFrom_mem hyp maxErrPx segCount segs i e he with ⟨j, hj, tl, h0, h1, hre⟩
  rw [hre]
  rcases Nat.eq_zero_or_pos segCount with hc | hc
  · simp [hc]
  · have hcq : (0 : ℚ) < (segCount : ℚ) := by exact_mod_cast hc
    apply (div_le_div_right hcq).mpr
    push_cast
    nlinarith [Nat.cast_nonneg (α := ℚ) j]

theorem segEntries_t_le (hyp : ℚ → ℚ → ℚ) (maxErrPx : ℚ) (segCount i : ℕ) (seg : Cubic) :
    ∀ e ∈ segEntries hyp maxErrPx segCount i seg,
      e.1 ≤ (((i + 1 : ℕ) : ℚ)) / (segCount : ℚ) := by
  intro e he
  rcases segEntries_mem hyp maxErrPx segCount i seg e he with ⟨tl, h0, h1, hre⟩
  rw [hre]
  rcases Nat.eq_zero_or_pos segCount with hc | hc
  · simp [hc]
  · have hcq : (0 : ℚ) < (segCount : ℚ) := by exact_mod_cast hc
    apply (div_le_div_right hcq).mpr
    push_cast
    linarith

theorem segEntries_chain (hyp : ℚ → ℚ → ℚ) (maxErrPx : ℚ) (segCount i : ℕ) (seg : Cubic) :
    ((segEntries hyp maxErrPx segCount i seg).map (fun e => e.1)).Chain' (· ≤ ·) := by
  have hch := sampleList_chain hyp seg maxErrPx 64
  have hkept : ((if i = 0 then sampleList hyp seg maxErrPx 64
      else (sampleList hyp seg maxErrPx 64).drop 1).map Prod.fst).Chain' (· < ·) := by
    by_cases hi : i = 0
    · rw [if_pos hi]
      exact hch
    · rw [if_neg hi, List.drop_one, List.map_tail]
      exact hch.tail
  simp only [segEntries, List.map_map]
  have heq : ((fun e : ℚ × Vec2 × ℕ => e.1) ∘
      (fun pr : ℚ × Vec2 => (((i : ℚ) + pr.1) / (segCount : ℚ), pr.2, i))) =
      (fun pr : ℚ × Vec2 => ((i : ℚ) + pr.1) / (segCount : ℚ)) := rfl
  rw [heq]
  have heq2 : (fun pr : ℚ × Vec2 => ((i : ℚ) + pr.1) / (segCount : ℚ)) =
      ((fun x : ℚ => ((i : ℚ) + x) / (segCount : ℚ)) ∘ Prod.fst) := rfl
  rw [heq2, ← List.map_map]
  rw [List.chain'_map]
  apply List.Chain'.imp ?_ hkept
  intro a b hab
  rcases Nat.eq_zero_or_pos segCount with hc | hc
  · simp [hc]
  · have hcq : (0 : ℚ) < (segCount : ℚ) := by exact_mod_cast hc
    apply (div_le_div_right hcq).mpr
    linarith

theorem buildLUTFrom_chain (hyp : ℚ → ℚ → ℚ) (maxErrPx : ℚ) (segCount : ℕ) :
    ∀ (segs : List Cubic) (i : ℕ),
      ((buildLUTFrom hyp maxErrPx segCount i segs).map (fun e => e.1)).Chain' (· ≤ ·) := by
  intro segs
  induction segs with
  | nil =>
    intro i
    exact List.chain'_nil
  | cons seg rest ih =>
    intro i
    rw [buildLUTFrom, List.map_append, List.chain'_append]
    refine ⟨segEntries_chain hyp maxErrPx segCount i seg, ih (i + 1), ?_⟩
    intro x hx y hy
    rw [List.getLast?_map] at hx
    rw [List.head?_map] at hy
    rcases Option.map_eq_some'.1 hx with ⟨e1, he1, hx'⟩
    rcases Option.map_eq_some'.1 hy with ⟨e2, he2, hy'⟩
    have h1 := segEntries_t_le hyp maxErrPx segCount i seg e1
      (List.mem_of_mem_getLast? he1)
    have h2 := buildLUTFrom_t_nonneg hyp maxErrPx segCount rest (i + 1) e2
      (List.mem_of_mem_head? he2)
    rw [← hx', ← hy']
    calc e1.1 ≤ (((i + 1 : ℕ) : ℚ)) / (segCount : ℚ) := h1
    _ ≤ e2.1 := by exact_mod_cast h2

/-! ### Arc-length accumulation -/

theorem accFrom_length (hyp : ℚ → ℚ → ℚ) :
    ∀ (l : List Vec2) (prev : Vec2) (acc : ℚ), (accFrom hyp prev acc l).length = l.length := by
  intro l
  induction l with
  | nil => intro prev acc; rfl
  | cons p rest ih =>
    intro prev acc
    rw [accFrom, List.length_cons, List.length_cons, ih]

theorem accumulateLengths_length (hyp : ℚ → ℚ → ℚ) (pts : List Vec2) (hne : pts ≠ []) :
    (accumulateLengths hyp pts).length = pts.length := by
  match pts with
  | [] => exact absurd rfl hne
  | p :: rest =>
    rw [accumulateLengths, List.length_cons, List.length_cons, accFrom_length]

theorem accumulateLengths_head (hyp : ℚ → ℚ → ℚ) (pts : List Vec2) :
    (accumulateLengths hyp pts).head? = some 0 := by
  match pts with
  | [] => rfl
  | p :: rest => rfl

theorem accumulateLengths_ne_nil (hyp : ℚ → ℚ → ℚ) (pts : List Vec2) :
    accumulateLengths hyp pts ≠ [] := by
  match pts with
  | [] => exact List.cons_ne_nil _ _
  | p :: rest => exact List.cons_ne_nil _ _

theorem accFrom_chain (hyp : ℚ → ℚ → ℚ) (H : HypModel hyp) :
    ∀ (l : List Vec2) (prev : Vec2) (acc : ℚ),
      (acc :: accFrom hyp prev acc l).Chain' (· ≤ ·) := by
  intro l
  induction l with
  | nil => intro prev acc; simp [accFrom]
  | cons p rest ih =>
    intro prev acc
    rw [accFrom, List.chain'_cons]
    exact ⟨by nlinarith [H.nonneg (p.x - prev.x) (p.y - prev.y)], ih p _⟩

theorem accumulateLengths_chain (hyp : ℚ → ℚ → ℚ) (H : HypModel hyp) (pts : List Vec2) :
    (accumulateLengths hyp pts).Chain' (· ≤ ·) := by
  match pts with
  | [] => simp [accumulateLengths]
  | p :: rest =>
    rw [accumulateLengths]
    exact accFrom_chain hyp H rest p 0

theorem accFrom_getD_succ (hyp : ℚ → ℚ → ℚ) :
    ∀ (l : List Vec2) (prev : Vec2) (acc : ℚ) (k : ℕ), k < l.length →
      (acc :: accFrom hyp prev acc l).getD (k + 1) 0 =
        (acc :: accFrom hyp prev acc l).getD k 0 +
          hyp (((prev :: l).getD (k + 1) default).x - ((prev :: l).getD k default).x)
              (((prev :: l).getD (k + 1) default).y - ((prev :: l).getD k default).y) := by
  intro l
  induction l with
  | nil =>
    intro prev acc k hk
    simp at hk
  | cons p rest ih =>
    intro prev acc k hk
    match k with
    | 0 => rfl
    | k + 1 =>
      rw [List.length_cons] at hk
      have hk' : k < rest.length := by omega
      have h := ih p (acc + hyp (p.x - prev.x) (p.y - prev.y)) k hk'
      rw [accFrom]
      simp only [List.getD_cons_succ]
      exact h

/-! ### Index access, binary search, and stalling arc length -/

theorem chain_le_getD_mono (l : List ℚ) (hch : l.Chain' (· ≤ ·)) :
    ∀ (j k : ℕ), j ≤ k → k < l.length → l.getD j 0 ≤ l.getD k 0 := by
  have hstep : ∀ (i : ℕ), i + 1 < l.length → l.getD i 0 ≤ l.getD (i + 1) 0 := by
    intro i hi
    have h := List.chain'_iff_get.1 hch i (by omega)
    rw [List.getD_eq_getElem?_getD, List.getD_eq_getElem?_getD,
      List.getElem?_eq_getElem (by omega : i < l.length), List.getElem?_eq_getElem hi]
    simpa using h
  intro j k hjk hk
  induction k, hjk using Nat.le_induction with
  | base => exact le_refl _
  | succ k hjk ih =>
    exact le_trans (ih (by omega)) (hstep k hk)

theorem map_getD_of_lt {α β : Type} [Inhabited β] (f : α → β) (l : List α) (i : ℕ)
    (h : i < l.length) (d : β) : (l.map f).getD i d = f (l.get ⟨i, h⟩) := by
  rw [List.getD_eq_getElem?_getD, List.getElem?_map,
    List.getElem?_eq_getElem h]
  rfl

theorem getLastD_eq_getD (l : List ℚ) (hne : l ≠ []) :
    l.getLastD 0 = l.getD (l.length - 1) 0 := by
  rw [List.getLastD_eq_getLast?, List.getLast?_eq_getElem?, List.getD_eq_getElem?_getD]

theorem lbGo_spec (arr : List ℚ) (x : ℚ)
    (hs : ∀ a b : ℕ, a ≤ b → b < arr.length → arr.getD a 0 ≤ arr.getD b 0) :
    ∀ (fuel lo hi : ℕ), lo ≤ hi → hi ≤ arr.length → hi - lo ≤ fuel →
      (∀ j < lo, arr.getD j 0 < x) →
      (∀ j, hi ≤ j → j < arr.length → ¬ arr.getD j 0 < x) →
      lbGo arr x fuel lo hi ≤ arr.length ∧
        (∀ j < lbGo arr x fuel lo hi, arr.getD j 0 < x) ∧
        (lbGo arr x fuel lo hi < arr.length → ¬ arr.getD (lbGo arr x fuel lo hi) 0 < x) := by
  intro fuel
  induction fuel with
  | zero =>
    intro lo hi h1 h2 h3 hlow hhigh
    have hlohi : lo = hi := by omega
    rw [lbGo]
    exact ⟨by omega, hlow, fun hlt => hhigh lo (by omega) hlt⟩
  | succ fuel ih =>
    intro lo hi h1 h2 h3 hlow hhigh
    by_cases hlt : lo < hi
    · have hmid1 : lo ≤ (lo + hi) / 2 := by
        rw [Nat.le_div_iff_mul_le (by norm_num)]
        omega
      have hmid2 : (lo + hi) / 2 < hi := by
        rw [Nat.div_lt_iff_lt_mul (by norm_num)]
        omega
      by_cases hcmp : arr.getD ((lo + hi) / 2) 0 < x
      · have heq : lbGo arr x (fuel + 1) lo hi = lbGo arr x fuel ((lo + hi) / 2 + 1) hi := by
          simp only [lbGo]
          rw [if_pos hlt, if_pos hcmp]
        rw [heq]
        apply ih ((lo + hi) / 2 + 1) hi (by omega) h2 (by omega) ?_ hhigh
        intro j hj
        exact lt_of_le_of_lt (hs j ((lo + hi) / 2) (by omega) (by omega)) hcmp
      · have heq : lbGo arr x (fuel + 1) lo hi = lbGo arr x fuel lo ((lo + hi) / 2) := by
          simp only [lbGo]
          rw [if_pos hlt, if_neg hcmp]
        rw [heq]
        apply ih lo ((lo + hi) / 2) (by omega) (by omega) (by omega) hlow ?_
        intro j hj1 hj2 hcon
        exact hcmp (lt_of_le_of_lt (hs ((lo + hi) / 2) j hj1 hj2) hcon)
    · have heq : lbGo arr x (fuel + 1) lo hi = lo := by
        simp only [lbGo]
        rw [if_neg hlt]
      rw [heq]
      exact ⟨by omega, hlow, fun hl => hhigh lo (by omega) hl⟩

theorem lowerBound_spec (arr : List ℚ) (x : ℚ)
    (hs : ∀ a b : ℕ, a ≤ b → b < arr.length → arr.getD a 0 ≤ arr.getD b 0) :
    lowerBound arr x ≤ arr.length ∧
      (∀ j < lowerBound arr x, arr.getD j 0 < x) ∧
      (lowerBound arr x < arr.length → ¬ arr.getD (lowerBound arr x) 0 < x) := by
  rw [lowerBound]
  exact lbGo_spec arr x hs arr.length 0 arr.length (by omega) (by omega) (by omega)
    (by omega) (fun j hj1 hj2 => by omega)

theorem accumulateLengths_getD_succ (hyp : ℚ → ℚ → ℚ) (p : Vec2) (rest : List Vec2)
    (k : ℕ) (hk : k < rest.length) :
    (accumulateLengths hyp (p :: rest)).getD (k + 1) 0 =
      (accumulateLengths hyp (p :: rest)).getD k 0 +
        hyp (((p :: rest).getD (k + 1) default).x - ((p :: rest).getD k default).x)
            (((p :: rest).getD (k + 1) default).y - ((p :: rest).getD k default).y) := by
  rw [accumulateLengths]
  exact accFrom_getD_succ hyp rest p 0 k hk

theorem accumulateLengths_stall (hyp : ℚ → ℚ → ℚ) (H : HypModel hyp) (pts : List Vec2) :
    ∀ (j k : ℕ), j ≤ k → k < pts.length →
      (accumulateLengths hyp pts).getD j 0 = (accumulateLengths hyp pts).getD k 0 →
      pts.getD j default = pts.getD k default := by
  intro j k hjk
  induction k, hjk using Nat.le_induction with
  | base =>
    intro _ _
    rfl
  | succ k hjk ih =>
    intro hk heq
    match pts, hk with
    | p :: rest, hk =>
      have hk' : k < rest.length := by
        rw [List.length_cons] at hk
        omega
      have hlen : (accumulateLengths hyp (p :: rest)).length = rest.length + 1 := by
        rw [accumulateLengths_length hyp _ (List.cons_ne_nil _ _), List.length_cons]
      have hch := accumulateLengths_chain hyp H (p :: rest)
      have hm1 : (accumulateLengths hyp (p :: rest)).getD j 0 ≤
          (accumulateLengths hyp (p :: rest)).getD k 0 :=
        chain_le_getD_mono _ hch j k hjk (by omega)
      have hm2 : (accumulateLengths hyp (p :: rest)).getD k 0 ≤
          (accumulateLengths hyp (p :: rest)).getD (k + 1) 0 :=
        chain_le_getD_mono _ hch k (k + 1) (by omega) (by omega)
      have hstep := accumulateLengths_getD_succ hyp p rest k hk'
      have heq1 : (accumulateLengths hyp (p :: rest)).getD j 0 =
          (accumulateLengths hyp (p :: rest)).getD k 0 := by linarith [heq, hm1, hm2]
      have hzero : hyp (((p :: rest).getD (k + 1) default).x - ((p :: rest).getD k default).x)
          (((p :: rest).getD (k + 1) default).y - ((p :: rest).getD k default).y) = 0 := by
        rw [heq1] at heq
        linarith [hstep, heq]
      have hdiff := (H.eq_zero_iff _ _).1 hzero
      have hpteq : (p :: rest).getD k default = (p :: rest).getD (k + 1) default := by
        have hx := hdiff.1
        have hy := hdiff.2
        have h1 : ((p :: rest).getD (k + 1) default).x = ((p :: rest).getD k default).x := by
          linarith
        have h2 : ((p :: rest).getD (k + 1) default).y = ((p :: rest).getD k default).y := by
          linarith
        cases hgk : (p :: rest).getD k default with
        | mk kx ky =>
          cases hgk1 : (p :: rest).getD (k + 1) default with
          | mk k1x k1y =>
            rw [hgk, hgk1] at h1 h2
            simp only at h1 h2
            rw [h1, h2]
      rw [← hpteq]
      exact ih (by omega) heq1

/-! ### Projections of the built lookup table -/

theorem lut_segments (hyp : ℚ → ℚ → ℚ) (curve : CurveState) :
    (buildParamLUT hyp curve).segments =
      controlsToSegments hyp curve.controls curve.tension := rfl

theorem lut_t (hyp : ℚ → ℚ → ℚ) (curve : CurveState) :
    (buildParamLUT hyp curve).t =
      (buildLUTFrom hyp 0.75 (controlsToSegments hyp curve.controls curve.tension).length 0
        (controlsToSegments hyp curve.controls curve.tension)).map (fun e => e.1) := rfl

theorem lut_pt (hyp : ℚ → ℚ → ℚ) (curve : CurveState) :
    (buildParamLUT hyp curve).pt =
      (buildLUTFrom hyp 0.75 (controlsToSegments hyp curve.controls curve.tension).length 0
        (controlsToSegments hyp curve.controls curve.tension)).map (fun e => e.2.1) := rfl

theorem lut_segIndex (hyp : ℚ → ℚ → ℚ) (curve : CurveState) :
    (buildParamLUT hyp curve).segIndex =
      (buildLUTFrom hyp 0.75 (controlsToSegments hyp curve.controls curve.tension).length 0
        (controlsToSegments hyp curve.controls curve.tension)).map (fun e => e.2.2) := rfl

theorem lut_s (hyp : ℚ → ℚ → ℚ) (curve : CurveState) :
    (buildParamLUT hyp curve).s =
      accumulateLengths hyp ((buildParamLUT hyp curve).pt) := rfl

theorem lut_length (hyp : ℚ → ℚ → ℚ) (curve : CurveState) :
    (buildParamLUT hyp curve).length = (buildParamLUT hyp curve).s.getLastD 0 := rfl

theorem controls_destruct (curve : CurveState) (h2 : 2 ≤ curve.controls.length) :
    ∃ p q rest, curve.controls = p :: q :: rest := by
  match hc : curve.controls with
  | [] =>
    rw [hc] at h2
    simp at h2
  | [x] =>
    rw [hc] at h2
    simp at h2
  | p :: q :: rest => exact ⟨p, q, rest, rfl⟩

theorem lut_segments_ne_nil (hyp : ℚ → ℚ → ℚ) (curve : CurveState)
    (h2 : 2 ≤ curve.controls.length) :
    (buildParamLUT hyp curve).segments ≠ [] := by
  rcases controls_destruct curve h2 with ⟨p, q, rest, hc⟩
  rw [lut_segments, hc]
  exact controlsToSegments_ne_nil hyp p q rest curve.tension

theorem lut_pt_ne_nil (hyp : ℚ → ℚ → ℚ) (curve : CurveState)
    (h2 : 2 ≤ curve.controls.length) :
    (buildParamLUT hyp curve).pt ≠ [] := by
  rw [lut_pt]
  have hsne := lut_segments_ne_nil hyp curve h2
  rw [lut_segments] at hsne
  rcases List.exists_cons_of_ne_nil hsne with ⟨seg, rest', hsr⟩
  rw [hsr]
  intro h
  rw [List.map_eq_nil_iff] at h
  exact buildLUTFrom_ne_nil hyp 0.75 _ 0 seg rest' h

theorem lut_lengths_align (hyp : ℚ → ℚ → ℚ) (curve : CurveState) :
    (buildParamLUT hyp curve).t.length = (buildParamLUT hyp curve).pt.length ∧
      (buildParamLUT hyp curve).pt.length = (buildParamLUT hyp curve).segIndex.length := by
  rw [lut_t, lut_pt, lut_segIndex]
  simp

theorem lut_s_length (hyp : ℚ → ℚ → ℚ) (curve : CurveState)
    (h2 : 2 ≤ curve.controls.length) :
    (buildParamLUT hyp curve).s.length = (buildParamLUT hyp curve).pt.length := by
  rw [lut_s]
  exact accumulateLengths_length hyp _ (lut_pt_ne_nil hyp curve h2)

theorem lut_t_chain (hyp : ℚ → ℚ → ℚ) (curve : CurveState) :
    (buildParamLUT hyp curve).t.Chain' (· ≤ ·) := by
  rw [lut_t]
  exact buildLUTFrom_chain hyp 0.75 _ _ 0

theorem lut_s_chain (hyp : ℚ → ℚ → ℚ) (H : HypModel hyp) (curve : CurveState) :
    (buildParamLUT hyp curve).s.Chain' (· ≤ ·) := by
  rw [lut_s]
  exact accumulateLengths_chain hyp H _

theorem lut_s_head (hyp : ℚ → ℚ → ℚ) (curve : CurveState) :
    (buildParamLUT hyp curve).s.head? = some 0 := by
  rw [lut_s]
  exact accumulateLengths_head hyp _

theorem head_getD_zero (l : List ℚ) (a : ℚ) (h : l.head? = some a) : l.getD 0 0 = a := by
  cases l with
  | nil => simp at h
  | cons x xs =>
    simp at h
    simpa using h

theorem lut_s_getD_zero (hyp : ℚ → ℚ → ℚ) (curve : CurveState) :
    (buildParamLUT hyp curve).s.getD 0 0 = 0 :=
  head_getD_zero _ _ (lut_s_head hyp curve)

theorem lut_t_head (hyp : ℚ → ℚ → ℚ) (curve : CurveState)
    (h2 : 2 ≤ curve.controls.length) :
    (buildParamLUT hyp curve).t.head? = some 0 := by
  rcases controls_destruct curve h2 with ⟨p, q, rest, hc⟩
  have hsne := lut_segments_ne_nil hyp curve h2
  rw [lut_segments] at hsne
  rcases List.exists_cons_of_ne_nil hsne with ⟨seg, rest', hsr⟩
  rw [lut_t, hsr, List.head?_map, buildLUTFrom_head]
  rfl

theorem lut_t_getLast (hyp : ℚ → ℚ → ℚ) (curve : CurveState)
    (h2 : 2 ≤ curve.controls.length)
    (htr : ∀ seg ∈ controlsToSegments hyp curve.controls curve.tension,
      (sampleList hyp seg 0.75 64).length ≤ 64) :
    (buildParamLUT hyp curve).t.getLast? = some 1 := by
  have hsne := lut_segments_ne_nil hyp curve h2
  rw [lut_segments] at hsne
  rw [lut_t, List.getLast?_map,
    buildLUTFrom_getLast hyp 0.75 _ (controlsToSegments hyp curve.controls curve.tension)
      0 hsne htr]
  have hlen : (0 : ℕ) + (controlsToSegments hyp curve.controls curve.tension).length =
      (controlsToSegments hyp curve.controls curve.tension).length := by omega
  rw [Option.map_some']
  have hpos : 0 < (controlsToSegments hyp curve.controls curve.tension).length :=
    List.length_pos.2 hsne
  have : (((0 + (controlsToSegments hyp curve.controls curve.tension).length : ℕ) : ℚ)) /
      ((controlsToSegments hyp curve.controls curve.tension).length : ℚ) = 1 := by
    rw [hlen]
    apply div_self
    exact_mod_cast Nat.pos_iff_ne_zero.1 hpos
  rw [this]

theorem lut_pt_getLast (hyp : ℚ → ℚ → ℚ) (p q : Vec2) (rest : List Vec2) (tension : ℚ)
    (htr : ∀ seg ∈ controlsToSegments hyp (p :: q :: rest) tension,
      (sampleList hyp seg 0.75 64).length ≤ 64) :
    (buildParamLUT hyp ⟨p :: q :: rest, tension⟩).pt.getLast? =
      some ((q :: rest).getLastD q) := by
  have hsne : controlsToSegments hyp (p :: q :: rest) tension ≠ [] :=
    controlsToSegments_ne_nil hyp p q rest tension
  rw [lut_pt, List.getLast?_map]
  show ((buildLUTFrom hyp 0.75 (controlsToSegments hyp (p :: q :: rest) tension).length 0
      (controlsToSegments hyp (p :: q :: rest) tension)).getLast?).map _ = _
  rw [buildLUTFrom_getLast hyp 0.75 _ (controlsToSegments hyp (p :: q :: rest) tension)
      0 hsne htr]
  rw [Option.map_some']
  have hl := controlsToSegments_last hyp p q rest tension
  have hgl : (controlsToSegments hyp (p :: q :: rest) tension).getLast hsne =
      ((controlsToSegments hyp (p :: q :: rest) tension).getLast?).getD default := by
    rw [List.getLast?_eq_getLast_of_ne_nil hsne]
    rfl
  cases hcase : (controlsToSegments hyp (p :: q :: rest) tension).getLast? with
  | none =>
    rw [List.getLast?_eq_none_iff] at hcase
    exact absurd hcase hsne
  | some s =>
    rw [hcase] at hl hgl
    simp only [Option.map_some', Option.some_inj] at hl
    simp only [Option.getD_some] at hgl
    rw [hgl, hl]

/-! ### Claim C9: tension enters only through its clamp -/

/-- C9 (confirmed): for every anchor list and tension, `controlsToSegments`
returns the same segment list when the tension is replaced by its clamp into
`[0.15, 0.85]`: the fitter's output depends on the tension only through
`clampRange tension 0.15 0.85`. -/
theorem claim_C9 (hyp : ℚ → ℚ → ℚ) (controls : List Vec2) (tension : ℚ) :
    controlsToSegments hyp controls tension =
      controlsToSegments hyp controls (clampRange tension 0.15 0.85) := by
  match controls with
  | [] => rfl
  | [_] => rfl
  | p :: q :: rest =>
    rw [controlsToSegments_eq, controlsToSegments_eq]
    have h : clampRange (clampRange tension 0.15 0.85) 0.15 0.85 =
        clampRange tension 0.15 0.85 := by
      rw [clampRange, clampRange, rmin_eq_min, rmin_eq_min, rmax_eq_max, rmax_eq_max]
      have h1 : (0.15 : ℚ) ≤ 0.85 := by norm_num
      rw [max_min_distrib_left, max_eq_right h1, ← max_assoc, max_self, ← min_assoc,
        min_self]
    rw [h]

/-! ### Claim C2: degenerate curves crash the queries instead of falling back -/

/-- For the degenerate table (no segments, no samples, `s = [0]`,
`length = 0`) every query of either direction is `undefined`/throws,
modelled `none`: `pointAtTime`'s binary search returns index 0 and reads
`pt[0]` of the empty array, `timeAtPoint` dereferences
`segments[0] = undefined` inside `projectPointToCubic`. -/
theorem queries_none (lut : LUT)
    (hs : lut.s = [0]) (hpt : lut.pt = []) (hseg : lut.segments = [])
    (hlen : lut.length = 0) :
    (∀ time : ℚ, pointAtTime lut time = none) ∧
    (∀ p : Vec2, timeAtPoint lut p = none) := by
  constructor
  · intro time
    simp only [pointAtTime]
    rw [hlen, mul_zero, hs]
    rw [show lowerBound [0] (0 : ℚ) = 0 by with_unfolding_all decide]
    rw [if_pos rfl, hpt]
    rfl
  · intro p
    simp only [timeAtPoint]
    rw [hseg, List.get?_nil]

/-- C2 (code_bug): for every `CurveSpec` with fewer than 2 anchors the fitter
does yield an empty segment list and a table with `length = 0`, but the
mapping queries do NOT return a fixed fallback: for every query time
`pointAtTime` reads `lut.pt[0]` of an empty array (JavaScript `undefined`,
modelled `none`), and for every query point `timeAtPoint` dereferences
`lut.segments[0] = undefined` inside `projectPointToCubic`, which throws a
`TypeError` (modelled `none`).  The spec requires a fallback point and
`time = 0` instead. -/
theorem claim_C2 (hyp : ℚ → ℚ → ℚ) (curve : CurveState)
    (h2 : curve.controls.length < 2) :
    controlsToSegments hyp curve.controls curve.tension = [] ∧
    (buildParamLUT hyp curve).length = 0 ∧
    (∀ time : ℚ, pointAtTime (buildParamLUT hyp curve) time = none) ∧
    (∀ p : Vec2, timeAtPoint (buildParamLUT hyp curve) p = none) := by
  obtain ⟨controls, tension⟩ := curve
  simp only at h2 ⊢
  match controls, h2 with
  | [], _ =>
    have hq := queries_none (buildParamLUT hyp ⟨[], tension⟩) rfl rfl rfl rfl
    exact ⟨rfl, rfl, hq.1, hq.2⟩
  | [x], _ =>
    have hq := queries_none (buildParamLUT hyp ⟨[x], tension⟩) rfl rfl rfl rfl
    exact ⟨rfl, rfl, hq.1, hq.2⟩
  | p :: q :: rest, h2 =>
    simp only [List.length_cons] at h2
    omega

/-- Witness for C2 at the spec's own degenerate example, a single anchor. -/
theorem claim_C2_witness :
    ([⟨5, 7⟩] : List Vec2).length < 2 ∧
    (controlsToSegments ratHyp [⟨5, 7⟩] (1/2) = [] ∧
     (buildParamLUT ratHyp ⟨[⟨5, 7⟩], 1/2⟩).length = 0 ∧
     (∀ time : ℚ, pointAtTime (buildParamLUT ratHyp ⟨[⟨5, 7⟩], 1/2⟩) time = none) ∧
     (∀ p : Vec2, timeAtPoint (buildParamLUT ratHyp ⟨[⟨5, 7⟩], 1/2⟩) p = none)) :=
  ⟨by decide, claim_C2 ratHyp ⟨[⟨5, 7⟩], 1/2⟩ (by decide)⟩

/-! ### Claim C6: the projection solver stays bounded and clamped -/

theorem foldl_preserve {α β : Type} (f : β → α → β) (P : β → Prop) :
    ∀ (l : List α) (st : β), P st → (∀ b a, P b → a ∈ l → P (f b a)) →
      P (l.foldl f st) := by
  intro l
  induction l with
  | nil =>
    intro st h _
    exact h
  | cons a rest ih =>
    intro st h hstep
    rw [List.foldl_cons]
    exact ih (f st a) (hstep st a h (List.mem_cons_self a rest))
      (fun b a2 hb ha2 => hstep b a2 hb (List.mem_cons_of_mem _ ha2))

theorem coarseT_fst_bounds (c : Cubic) (p : Vec2) (coarseSteps : ℕ) :
    0 ≤ (coarseT c p coarseSteps).1 ∧ (coarseT c p coarseSteps).1 ≤ 1 := by
  rw [coarseT]
  refine foldl_preserve
    (fun (best : ℚ × Vec2 × ℚ) (i : ℕ) =>
      let t := (i : ℚ) / (coarseSteps : ℚ)
      let q := cubicPoint c t
      let d2 := (q.x - p.x) * (q.x - p.x) + (q.y - p.y) * (q.y - p.y)
      if d2 < best.2.2 then (t, q, d2) else best)
    (fun st : ℚ × Vec2 × ℚ => 0 ≤ st.1 ∧ st.1 ≤ 1)
    (List.range' 1 coarseSteps)
    (0, c.p0, (c.p0.x - p.x) * (c.p0.x - p.x) + (c.p0.y - p.y) * (c.p0.y - p.y))
    (by norm_num) ?_
  intro b i hb hi
  rw [List.mem_range'] at hi
  have h1i : 1 ≤ i := by omega
  have hin : i ≤ coarseSteps := by omega
  have hcs : (0 : ℚ) < (coarseSteps : ℚ) := by
    have : 1 ≤ coarseSteps := le_trans h1i hin
    exact_mod_cast this
  dsimp only
  split
  · constructor
    · positivity
    · rw [div_le_one hcs]
      exact_mod_cast hin
  · exact hb

theorem newtonStep_bounds (c : Cubic) (p : Vec2) (t : ℚ) (h0 : 0 ≤ t) (h1 : t ≤ 1) :
    0 ≤ newtonStep c p t ∧ newtonStep c p t ≤ 1 := by
  rw [newtonStep]
  dsimp only
  split
  · exact ⟨h0, h1⟩
  · constructor
    · exact clamp01_nonneg _
    · exact clamp01_le_one _

/-- C6 (confirmed): for every cubic, query point, and `coarseSteps ≥ 1`,
`projectPointToCubic` returns a parameter in `[0, 1]`; its structure is
exactly the coarse scan followed by two Newton steps (a hard iteration
bound); and any Newton step whose second-derivative term has
`|hess| < 1e-6` leaves the estimate unchanged instead of dividing. -/
theorem claim_C6 (c : Cubic) (p : Vec2) (coarseSteps : ℕ) (hcs : 1 ≤ coarseSteps) :
    (0 ≤ (projectPointToCubic c p coarseSteps).t ∧
      (projectPointToCubic c p coarseSteps).t ≤ 1) ∧
    (projectPointToCubic c p coarseSteps).t =
      newtonStep c p (newtonStep c p (coarseT c p coarseSteps).1) ∧
    (∀ t0 : ℚ, rabs (hessAt c p t0) < 1e-6 → newtonStep c p t0 = t0) := by
  have hc := coarseT_fst_bounds c p coarseSteps
  have h1 := newtonStep_bounds c p _ hc.1 hc.2
  have h2 := newtonStep_bounds c p _ h1.1 h1.2
  refine ⟨⟨h2.1, h2.2⟩, rfl, ?_⟩
  intro t0 hsm
  rw [newtonStep]
  dsimp only
  rw [if_pos hsm]

/-- Witness for C6 at a concrete cubic, query point and 25 coarse steps. -/
theorem claim_C6_witness :
    1 ≤ 25 ∧
      (0 ≤ (projectPointToCubic ⟨⟨0, 0⟩, ⟨1, 2⟩, ⟨3, 1⟩, ⟨4, 0⟩⟩ ⟨2, 5⟩ 25).t ∧
        (projectPointToCubic ⟨⟨0, 0⟩, ⟨1, 2⟩, ⟨3, 1⟩, ⟨4, 0⟩⟩ ⟨2, 5⟩ 25).t ≤ 1) :=
  ⟨by norm_num, (claim_C6 ⟨⟨0, 0⟩, ⟨1, 2⟩, ⟨3, 1⟩, ⟨4, 0⟩⟩ ⟨2, 5⟩ 25 (by norm_num)).1⟩

/-! ### Claim C3: sampler coverage -/

/-- C3 (amended): for every cubic, tolerance and cap, the sampler's parameter
sequence starts at 0 and is strictly increasing, its first point is `p0`,
and every sample lies on the curve (`pt[k] = cubicPoint(c, t[k])`) - all
unconditionally; and PROVIDED the point-count cap was not hit (the returned
sample count is at most `maxSeg`), it ends at 1 with last point `p3`.  The
original claim - the ending for every `maxSeg` - is refuted by
`claim_C3_cex`, since the cap silently truncates refinement. -/
theorem claim_C3 (hyp : ℚ → ℚ → ℚ) (c : Cubic) (maxErrPx : ℚ) (maxSeg : ℕ) :
    (sampleCubic hyp c maxErrPx maxSeg).t.head? = some 0 ∧
    (sampleCubic hyp c maxErrPx maxSeg).t.Chain' (· < ·) ∧
    (sampleCubic hyp c maxErrPx maxSeg).pt.head? = some c.p0 ∧
    (∀ k, k < (sampleCubic hyp c maxErrPx maxSeg).t.length →
      (sampleCubic hyp c maxErrPx maxSeg).pt.getD k default =
        cubicPoint c ((sampleCubic hyp c maxErrPx maxSeg).t.getD k 0)) ∧
    ((sampleCubic hyp c maxErrPx maxSeg).t.length ≤ maxSeg →
      (sampleCubic hyp c maxErrPx maxSeg).t.getLast? = some 1 ∧
      (sampleCubic hyp c maxErrPx maxSeg).pt.getLast? = some c.p3) := by
  refine ⟨?_, ?_, ?_, ?_, ?_⟩
  · show ((sampleList hyp c maxErrPx maxSeg).map Prod.fst).head? = some 0
    rw [List.head?_map, sampleList_head]
    rfl
  · exact sampleList_chain hyp c maxErrPx maxSeg
  · show ((sampleList hyp c maxErrPx maxSeg).map Prod.snd).head? = some c.p0
    rw [List.head?_map, sampleList_head]
    rfl
  · intro k hk
    have hkL : k < (sampleList hyp c maxErrPx maxSeg).length := by
      simpa [sampleCubic] using hk
    show ((sampleList hyp c maxErrPx maxSeg).map Prod.snd).getD k default =
      cubicPoint c (((sampleList hyp c maxErrPx maxSeg).map Prod.fst).getD k 0)
    rw [map_getD_of_lt _ _ _ hkL, map_getD_of_lt _ _ _ hkL]
    exact sampleList_on_curve hyp c maxErrPx maxSeg _ (List.get_mem _ _ hkL)
  · intro hcap
    have hcap' : (sampleList hyp c maxErrPx maxSeg).length ≤ maxSeg := by
      simpa [sampleCubic] using hcap
    have hgl := sampleList_getLast hyp c maxErrPx maxSeg hcap'
    constructor
    · show ((sampleList hyp c maxErrPx maxSeg).map Prod.fst).getLast? = some 1
      rw [List.getLast?_map, hgl]
      rfl
    · show ((sampleList hyp c maxErrPx maxSeg).map Prod.snd).getLast? = some c.p3
      rw [List.getLast?_map, hgl]
      rfl

/-- Counterexample to C3 as frozen: with `maxSeg = 1` on a genuinely curved
cubic the point cap truncates sampling, and the parameter sequence does not
end at 1. -/
theorem claim_C3_cex :
    (sampleCubic ratHyp ⟨⟨0, 0⟩, ⟨0, 8⟩, ⟨1, 8⟩, ⟨1, 0⟩⟩ (3/4) 1).t.getLastD 0 ≠ 1 := by
  with_unfolding_all decide

/-- Witness for C3 on a flat cubic whose sampling stays under the cap, so
the conditional ending clause fires. -/
theorem claim_C3_witness :
    (sampleCubic ratHyp ⟨⟨0, 0⟩, ⟨1, 0⟩, ⟨2, 0⟩, ⟨3, 0⟩⟩ (3/4) 64).t.length ≤ 64 ∧
      (sampleCubic ratHyp ⟨⟨0, 0⟩, ⟨1, 0⟩, ⟨2, 0⟩, ⟨3, 0⟩⟩ (3/4) 64).t.getLast? = some 1 :=
  ⟨by with_unfolding_all decide,
    ((claim_C3 ratHyp ⟨⟨0, 0⟩, ⟨1, 0⟩, ⟨2, 0⟩, ⟨3, 0⟩⟩ (3/4) 64).2.2.2.2
      (by with_unfolding_all decide)).1⟩

/-! ### Claim C4: LUT ordering invariants -/

/-- C4 (amended): for every `CurveSpec` with at least 2 anchors, the built
LUT's `t` and `s` sequences are non-decreasing with `t[0] = 0` and
`s[0] = 0` - all unconditionally; and PROVIDED no segment's adaptive
sampling hit the 64-point cap, `t[N-1] = 1`.  The original unconditional
`t[N-1] = 1` is refuted by `claim_C4_cex`: a large enough curve truncates at
the cap and the final parameter stays below 1. -/
theorem claim_C4 (hyp : ℚ → ℚ → ℚ) (H : HypModel hyp) (curve : CurveState)
    (h2 : 2 ≤ curve.controls.length) :
    (buildParamLUT hyp curve).t.Chain' (· ≤ ·) ∧
    (buildParamLUT hyp curve).s.Chain' (· ≤ ·) ∧
    (buildParamLUT hyp curve).t.head? = some 0 ∧
    (buildParamLUT hyp curve).s.head? = some 0 ∧
    ((∀ seg ∈ controlsToSegments hyp curve.controls curve.tension,
        (sampleList hyp seg 0.75 64).length ≤ 64) →
      (buildParamLUT hyp curve).t.getLast? = some 1) :=
  ⟨lut_t_chain hyp curve, lut_s_chain hyp H curve, lut_t_head hyp curve h2,
    lut_s_head hyp curve, fun htr => lut_t_getLast hyp curve h2 htr⟩

/-- Counterexample to C4 as frozen: this wide 3-anchor curve forces more
than 64 adaptive samples per segment, the cap truncates refinement, and the
final global parameter t[N-1] is not 1. -/
theorem claim_C4_cex :
    (buildParamLUT ratHyp ⟨[⟨0, 0⟩, ⟨1000000, 0⟩, ⟨0, 0⟩], 1/2⟩).t ≠ [] ∧
    (buildParamLUT ratHyp ⟨[⟨0, 0⟩, ⟨1000000, 0⟩, ⟨0, 0⟩], 1/2⟩).t.getLastD 0 ≠ 1 := by
  have h : (buildParamLUT ratHyp (⟨[⟨0, 0⟩, ⟨1000000, 0⟩, ⟨0, 0⟩], 1/2⟩ : CurveState)).t
      = (buildLUTFromExt ratHyp 0.75
          (controlsToSegments ratHyp [⟨0, 0⟩, ⟨1000000, 0⟩, ⟨0, 0⟩] (1/2)).length 0
          (controlsToSegments ratHyp [⟨0, 0⟩, ⟨1000000, 0⟩, ⟨0, 0⟩] (1/2))).map
            (fun e => e.1) := by
    simp only [buildParamLUT, buildLUT, buildLUTFrom_eq_ext]
  rw [h]
  constructor
  · with_unfolding_all decide
  · with_unfolding_all decide

/-- Witness for C4 on a mild two-anchor curve that stays under the cap. -/
theorem claim_C4_witness :
    2 ≤ (⟨[⟨0, 0⟩, ⟨100, 0⟩], 1/2⟩ : CurveState).controls.length ∧
    (buildParamLUT ratHyp ⟨[⟨0, 0⟩, ⟨100, 0⟩], 1/2⟩).t.getLast? = some 1 :=
  ⟨by norm_num,
   (claim_C4 ratHyp ratHyp_model ⟨[⟨0, 0⟩, ⟨100, 0⟩], 1/2⟩ (by norm_num)).2.2.2.2
     (by with_unfolding_all decide)⟩

/-! ### Claim C7: index alignment of the four LUT sequences -/

/-- C7 (amended): for every `CurveSpec` with at least 2 anchors the four
sequences `t`, `s`, `segIndex`, `pt` are index-aligned with one common
length, and the scalar `length` field equals the last element of `s`.  The
"including fewer than 2 anchors" half of the frozen claim is refuted by
`claim_C7_cex`: for a degenerate curve `s = [0]` has length 1 while the
other three sequences are empty. -/
theorem claim_C7 (hyp : ℚ → ℚ → ℚ) (curve : CurveState) (h2 : 2 ≤ curve.controls.length) :
    ((buildParamLUT hyp curve).t.length = (buildParamLUT hyp curve).pt.length ∧
     (buildParamLUT hyp curve).pt.length = (buildParamLUT hyp curve).segIndex.length ∧
     (buildParamLUT hyp curve).s.length = (buildParamLUT hyp curve).pt.length) ∧
    (buildParamLUT hyp curve).s.getLast? = some (buildParamLUT hyp curve).length := by
  refine ⟨⟨(lut_lengths_align hyp curve).1, (lut_lengths_align hyp curve).2,
    lut_s_length hyp curve h2⟩, ?_⟩
  have hne : (buildParamLUT hyp curve).s ≠ [] := by
    rw [lut_s]
    exact accumulateLengths_ne_nil hyp _
  rw [lut_length, List.getLastD_eq_getLast?]
  cases hcase : (buildParamLUT hyp curve).s.getLast? with
  | none =>
    rw [List.getLast?_eq_none_iff] at hcase
    exact absurd hcase hne
  | some v => rfl

/-- Counterexample to C7 as frozen: with a single anchor, `s = [0]` has
length 1 while `pt` is empty, so the four sequences are not index-aligned. -/
theorem claim_C7_cex :
    (buildParamLUT ratHyp ⟨[⟨5, 7⟩], 1/2⟩).s.length ≠
      (buildParamLUT ratHyp ⟨[⟨5, 7⟩], 1/2⟩).pt.length := by
  with_unfolding_all decide

/-- Witness for C7 on a mild two-anchor curve. -/
theorem claim_C7_witness :
    2 ≤ (⟨[⟨0, 0⟩, ⟨100, 0⟩], 1/2⟩ : CurveState).controls.length ∧
    (buildParamLUT ratHyp ⟨[⟨0, 0⟩, ⟨100, 0⟩], 1/2⟩).s.length =
      (buildParamLUT ratHyp ⟨[⟨0, 0⟩, ⟨100, 0⟩], 1/2⟩).pt.length :=
  ⟨by norm_num,
   (claim_C7 ratHyp ⟨[⟨0, 0⟩, ⟨100, 0⟩], 1/2⟩ (by norm_num)).1.2.2⟩

/-! ### Claim C10: segment indices are in bounds -/

theorem lut_segIndex_getD_lt (hyp : ℚ → ℚ → ℚ) (curve : CurveState)
    (h2 : 2 ≤ curve.controls.length) (i : ℕ) :
    (buildParamLUT hyp curve).segIndex.getD i 0 <
      (buildParamLUT hyp curve).segments.length := by
  have hcnt : 0 < (buildParamLUT hyp curve).segments.length :=
    List.length_pos.2 (lut_segments_ne_nil hyp curve h2)
  by_cases hi : i < (buildParamLUT hyp curve).segIndex.length
  · have hmem : (buildParamLUT hyp curve).segIndex.getD i 0 ∈
        (buildParamLUT hyp curve).segIndex := by
      rw [List.getD_eq_getElem?_getD, List.getElem?_eq_getElem hi]
      exact List.get_mem _ i hi
    rw [lut_segIndex] at hmem
    rcases List.mem_map.1 hmem with ⟨e, he, hsi⟩
    have := buildLUTFrom_segIndex_lt hyp 0.75 _ _ 0 e he
    rw [lut_segments, lut_segIndex]
    omega
  · rw [List.getD_eq_getElem?_getD, List.getElem?_eq_none (by omega)]
    simpa using hcnt

theorem coarseScan_bestSeg_lt (hyp : ℚ → ℚ → ℚ) (curve : CurveState) (p : Vec2)
    (h2 : 2 ≤ curve.controls.length) :
    (coarseScan (buildParamLUT hyp curve) p).2.2 <
      (buildParamLUT hyp curve).segments.length := by
  have hcnt : 0 < (buildParamLUT hyp curve).segments.length :=
    List.length_pos.2 (lut_segments_ne_nil hyp curve h2)
  rw [coarseScan]
  refine foldl_preserve _
    (fun st : ℕ × Option ℚ × ℕ => st.2.2 < (buildParamLUT hyp curve).segments.length)
    (List.range (buildParamLUT hyp curve).pt.length) (0, none, 0) hcnt ?_
  intro b i hb _
  dsimp only
  split
  · exact lut_segIndex_getD_lt hyp curve h2 i
  · exact hb

/-- C10 (confirmed): every `segIndex` entry produced by `buildLUT` is a valid
index into the segment list, and consequently the segment chosen by
`timeAtPoint`'s coarse scan is in bounds for every table built from at least
2 anchors (so the `lut.segments[bestSeg]` lookup cannot go out of bounds). -/
theorem claim_C10 (hyp : ℚ → ℚ → ℚ) (segments : List Cubic) (maxErrPx : ℚ)
    (hne : segments ≠ []) :
    (∀ si ∈ (buildLUT hyp segments maxErrPx).segIndex, si < segments.length) ∧
    (∀ (curve : CurveState) (p : Vec2), 2 ≤ curve.controls.length →
      (coarseScan (buildParamLUT hyp curve) p).2.2 <
        (buildParamLUT hyp curve).segments.length) := by
  constructor
  · intro si hsi
    simp only [buildLUT, List.mem_map] at hsi
    rcases hsi with ⟨e, he, hsi⟩
    have := buildLUTFrom_segIndex_lt hyp maxErrPx segments.length segments 0 e he
    omega
  · intro curve p h2
    exact coarseScan_bestSeg_lt hyp curve p h2

/-- Witness for C10 on a mild two-anchor curve and a concrete query point. -/
theorem claim_C10_witness :
    (controlsToSegments ratHyp [⟨0, 0⟩, ⟨100, 0⟩] (1/2)) ≠ [] ∧
    (coarseScan (buildParamLUT ratHyp ⟨[⟨0, 0⟩, ⟨100, 0⟩], 1/2⟩) ⟨50, 0⟩).2.2 <
      (buildParamLUT ratHyp ⟨[⟨0, 0⟩, ⟨100, 0⟩], 1/2⟩).segments.length :=
  ⟨by with_unfolding_all decide,
   (claim_C10 ratHyp (controlsToSegments ratHyp [⟨0, 0⟩, ⟨100, 0⟩] (1/2)) 0.75
     (by with_unfolding_all decide)).2 ⟨[⟨0, 0⟩, ⟨100, 0⟩], 1/2⟩ ⟨50, 0⟩ (by norm_num)⟩

/-! ### Claim C5: the inverse query is total and in range -/

theorem clamp01_mul_day_nonneg (x : ℚ) : 0 ≤ clamp01 x * 86400 := by
  have := clamp01_nonneg x
  nlinarith

theorem clamp01_mul_day_le (x : ℚ) : clamp01 x * 86400 ≤ 86400 := by
  have := clamp01_le_one x
  nlinarith

/-- C5 (amended): for every lookup table built from a `CurveSpec` with at
least 2 anchors and every query point, `timeAtPoint` performs no
out-of-bounds segment access and returns `some r` with `0 ≤ r ≤ 86400`,
where `r = clamp01(s' / max(1e-6, length)) * 86400` for `s'` the
interpolated arc length the algorithm itself computes (`timeAtPointS`, the
source's local `s`).  The frozen claim's formula `clamp(s/length) * 86400`
(without the epsilon floor on the denominator) is refuted by `claim_C5_cex`
on a curve shorter than `1e-6`. -/
theorem claim_C5 (hyp : ℚ → ℚ → ℚ) (curve : CurveState) (h2 : 2 ≤ curve.controls.length)
    (p : Vec2) :
    ∃ r s', timeAtPoint (buildParamLUT hyp curve) p = some r ∧
      timeAtPointS (buildParamLUT hyp curve) p = some s' ∧
      r = clamp01 (s' / rmax 1e-6 (buildParamLUT hyp curve).length) * 86400 ∧
      0 ≤ r ∧ r ≤ 86400 := by
  have hlt := coarseScan_bestSeg_lt hyp curve p h2
  have hget : (buildParamLUT hyp curve).segments.get?
      ((coarseScan (buildParamLUT hyp curve) p).2.2) =
      some ((buildParamLUT hyp curve).segments.get ⟨_, hlt⟩) := List.get?_eq_get hlt
  rw [timeAtPoint, timeAtPointS]
  rw [hget]
  exact ⟨_, _, rfl, rfl, rfl, clamp01_mul_day_nonneg _, clamp01_mul_day_le _⟩

theorem option_eq_some_of_getD (o : Option ℚ) (v : ℚ) (hs : o.isSome = true)
    (hv : o.getD 0 = v) : o = some v := by
  cases o with
  | none => simp at hs
  | some a => simpa using hv

/-- Counterexample to C5's frozen formula: on a curve of total length `1e-7`
the query at the far endpoint has interpolated arc length `s' = 1e-7` yet
returns `8640 = clamp01(s'/1e-6)*86400` (the epsilon-floored denominator),
while the frozen `clamp(s'/length) * 86400` would be `86400`. -/
theorem claim_C5_cex :
    timeAtPoint (buildParamLUT ratHyp ⟨[⟨0, 0⟩, ⟨1e-7, 0⟩], 1/2⟩) ⟨1e-7, 0⟩ = some 8640 ∧
    timeAtPointS (buildParamLUT ratHyp ⟨[⟨0, 0⟩, ⟨1e-7, 0⟩], 1/2⟩) ⟨1e-7, 0⟩ = some 1e-7 ∧
    (buildParamLUT ratHyp ⟨[⟨0, 0⟩, ⟨1e-7, 0⟩], 1/2⟩).length = 1e-7 ∧
    clamp01 ((1e-7 : ℚ) / 1e-7) * 86400 = 86400 ∧ (8640 : ℚ) ≠ 86400 := by
  refine ⟨option_eq_some_of_getD _ _ (by with_unfolding_all decide)
      (le_antisymm (by with_unfolding_all decide) (by with_unfolding_all decide)),
    option_eq_some_of_getD _ _ (by with_unfolding_all decide)
      (le_antisymm (by with_unfolding_all decide) (by with_unfolding_all decide)),
    le_antisymm (by with_unfolding_all decide) (by with_unfolding_all decide),
    le_antisymm (by with_unfolding_all decide) (by with_unfolding_all decide),
    by with_unfolding_all decide⟩

/-- Witness for C5 on a mild two-anchor curve and a concrete query point. -/
theorem claim_C5_witness :
    2 ≤ (⟨[⟨0, 0⟩, ⟨100, 0⟩], 1/2⟩ : CurveState).controls.length ∧
    (∃ r s', timeAtPoint (buildParamLUT ratHyp ⟨[⟨0, 0⟩, ⟨100, 0⟩], 1/2⟩) ⟨50, 0⟩ = some r ∧
      timeAtPointS (buildParamLUT ratHyp ⟨[⟨0, 0⟩, ⟨100, 0⟩], 1/2⟩) ⟨50, 0⟩ = some s' ∧
      r = clamp01 (s' / rmax 1e-6
        (buildParamLUT ratHyp ⟨[⟨0, 0⟩, ⟨100, 0⟩], 1/2⟩).length) * 86400 ∧
      0 ≤ r ∧ r ≤ 86400) :=
  ⟨by norm_num, claim_C5 ratHyp ⟨[⟨0, 0⟩, ⟨100, 0⟩], 1/2⟩ (by norm_num) ⟨50, 0⟩⟩

/-! ### Claim C1: endpoint exactness of the forward mapping -/

theorem clamp01_zero : clamp01 0 = 0 :=
  clamp01_of_mem 0 (le_refl 0) (by norm_num)

theorem clamp01_one : clamp01 1 = 1 :=
  clamp01_of_mem 1 (by norm_num) (le_refl 1)

theorem rmax_eq_right (a b : ℚ) (h : a ≤ b) : rmax a b = b := by
  rw [rmax, if_pos h]

theorem imin_eq_right (a b : ℤ) (h : b ≤ a) : imin a b = b := by
  rw [imin]
  split
  · rename_i h2
    omega
  · rfl

theorem get?_zero_of_head {α : Type} (l : List α) (a : α) (h : l.head? = some a) :
    l.get? 0 = some a := by
  cases l with
  | nil => simp at h
  | cons x xs =>
    simp at h
    simp [h]

theorem getD_last_of_getLast? {α : Type} [Inhabited α] (l : List α) (v : α)
    (h : l.getLast? = some v) : l.getD (l.length - 1) default = v := by
  rw [List.getD_eq_getElem?_getD, ← List.getLast?_eq_getElem?, h]
  rfl

theorem getD_mem_of_lt {α : Type} (l : List α) (i : ℕ) (h : i < l.length) (d : α) :
    l.getD i d ∈ l := by
  rw [List.getD_eq_getElem?_getD, List.getElem?_eq_getElem h]
  exact List.get_mem _ i h

theorem imin_eq_left (a b : ℤ) (h : a ≤ b) : imin a b = a := by
  rw [imin, if_pos h]

theorem getD_zero_of_head {α : Type} [Inhabited α] (l : List α) (a : α)
    (h : l.head? = some a) : l.getD 0 default = a := by
  cases l with
  | nil => simp at h
  | cons x xs =>
    simp only [List.head?_cons, Option.some_inj] at h
    simp [h]

theorem getD_eq_get {α : Type} [Inhabited α] (l : List α) (i : ℕ) (h : i < l.length) :
    l.getD i default = l.get ⟨i, h⟩ := by
  rw [List.getD_eq_getElem?_getD, List.getElem?_eq_getElem h]
  rfl

theorem get?_eq_some_getD {α : Type} [Inhabited α] (l : List α) (i : ℕ) (h : i < l.length) :
    l.get? i = some (l.getD i default) := by
  rw [List.getD_eq_getElem?_getD, List.getElem?_eq_getElem h,
    List.get?_eq_getElem?, List.getElem?_eq_getElem h]
  rfl

theorem chain_adj_getD (segs : List Cubic)
    (hadj : List.Chain' (fun s1 s2 => s1.p3 = s2.p0) segs) :
    ∀ i, i + 1 < segs.length →
      (segs.getD i default).p3 = (segs.getD (i + 1) default).p0 := by
  intro i hi
  have h := List.chain'_iff_get.1 hadj i (by omega)
  rw [getD_eq_get _ _ (by omega : i < segs.length), getD_eq_get _ _ hi]
  exact h

/-- Endpoint behaviour of `pointAtTime` over any lookup table satisfying the
structural invariants established above for `buildParamLUT` (together with the
no-small-gap side condition on consecutive arc lengths).  Working over an
abstract `lut` keeps every term small. -/
theorem pointAtTime_endpoints (lut : LUT) (P0 PN : Vec2)
    (hslen : lut.s.length = lut.pt.length)
    (hptpos : 0 < lut.pt.length)
    (hsmono : ∀ a b : ℕ, a ≤ b → b < lut.s.length → lut.s.getD a 0 ≤ lut.s.getD b 0)
    (hs0 : lut.s.getD 0 0 = 0)
    (hLlast : lut.length = lut.s.getD (lut.s.length - 1) 0)
    (hpt_head : lut.pt.head? = some P0)
    (hptlast : lut.pt.getLast? = some PN)
    (hstall : ∀ j k : ℕ, j ≤ k → k < lut.pt.length → lut.s.getD j 0 = lut.s.getD k 0 →
      lut.pt.getD j default = lut.pt.getD k default)
    (hsgap : ∀ k, k + 1 < lut.s.length →
      lut.s.getD (k + 1) 0 - lut.s.getD k 0 = 0 ∨
        1e-6 ≤ lut.s.getD (k + 1) 0 - lut.s.getD k 0)
    (hadj : List.Chain' (fun s1 s2 => s1.p3 = s2.p0) lut.segments)
    (hsegpos : 0 < lut.segments.length)
    (hentry : ∀ i, i < lut.pt.length → ∃ j, j < lut.segments.length ∧ ∃ tl : ℚ,
      0 ≤ tl ∧ tl ≤ 1 ∧ lut.t.getD i 0 = ((j : ℚ) + tl) / (lut.segments.length : ℚ) ∧
      lut.pt.getD i default = cubicPoint (lut.segments.getD j default) tl) :
    pointAtTime lut 0 = some P0 ∧ pointAtTime lut 86400 = some PN := by
  have hsl1 : 1 ≤ lut.s.length := by omega
  constructor
  · -- time = 0: targetS = 0, the binary search lands on index 0
    have harg : clamp01 ((0 : ℚ) / 86400) * lut.length = 0 := by
      rw [zero_div, clamp01_zero, zero_mul]
    simp only [pointAtTime]
    rw [harg]
    obtain ⟨hle, hbelow, hat⟩ := lowerBound_spec lut.s 0 hsmono
    have hidx : lowerBound lut.s 0 = 0 := by
      by_contra hne
      have h0lt := hbelow 0 (Nat.pos_of_ne_zero hne)
      rw [hs0] at h0lt
      exact absurd h0lt (lt_irrefl 0)
    rw [hidx, if_pos rfl]
    rw [get?_zero_of_head _ P0 hpt_head]
  · -- time = 86400: targetS = length
    have harg : clamp01 ((86400 : ℚ) / 86400) * lut.length = lut.length := by
      rw [div_self (by norm_num : (86400 : ℚ) ≠ 0), clamp01_one, one_mul]
    simp only [pointAtTime]
    rw [harg]
    obtain ⟨hle, hbelow, hat⟩ := lowerBound_spec lut.s lut.length hsmono
    have hidxle : lowerBound lut.s lut.length ≤ lut.s.length - 1 := by
      by_contra hcon
      have hlt := hbelow (lut.s.length - 1) (by omega)
      rw [← hLlast] at hlt
      exact absurd hlt (lt_irrefl _)
    have hlastD : lut.pt.getD (lut.pt.length - 1) default = PN :=
      getD_last_of_getLast? _ _ hptlast
    by_cases hidx0 : lowerBound lut.s lut.length = 0
    · -- the search returns 0: the whole curve has arc length 0 and stalls
      rw [hidx0, if_pos rfl]
      have h1 := hat (by omega)
      rw [hidx0, hs0] at h1
      push_neg at h1
      have h2 : 0 ≤ lut.length := by
        have h3 := hsmono 0 (lut.s.length - 1) (by omega) (by omega)
        rw [hs0] at h3
        rw [hLlast]
        exact h3
      have hL0 : lut.length = 0 := le_antisymm h1 h2
      have h0N : lut.s.getD 0 0 = lut.s.getD (lut.pt.length - 1) 0 := by
        rw [hs0, ← hslen, ← hLlast, hL0]
      have hpp := hstall 0 (lut.pt.length - 1) (by omega) (by omega) h0N
      rw [get?_zero_of_head _ P0 hpt_head]
      have hP0 : lut.pt.getD 0 default = P0 := getD_zero_of_head _ _ hpt_head
      rw [← hlastD, ← hpp, hP0]
    · -- interpolation branch: s[idx] = length, the gap floor is inactive
      rw [if_neg hidx0]
      have hidxlt : lowerBound lut.s lut.length < lut.s.length := by omega
      rw [if_neg (by omega : ¬ lut.s.length ≤ lowerBound lut.s lut.length)]
      have hsidx : lut.s.getD (lowerBound lut.s lut.length) 0 = lut.length := by
        have h1 := hat hidxlt
        push_neg at h1
        have h2 : lut.s.getD (lowerBound lut.s lut.length) 0 ≤ lut.length := by
          have h4 := hsmono (lowerBound lut.s lut.length) (lut.s.length - 1)
            (by omega) (by omega)
          rw [← hLlast] at h4
          exact h4
        linarith
      have hspred : lut.s.getD (lowerBound lut.s lut.length - 1) 0 < lut.length :=
        hbelow _ (by omega)
      have hgappos : 0 < lut.length - lut.s.getD (lowerBound lut.s lut.length - 1) 0 := by
        linarith
      have hgap' := hsgap (lowerBound lut.s lut.length - 1) (by omega)
      rw [show lowerBound lut.s lut.length - 1 + 1 = lowerBound lut.s lut.length by omega,
        hsidx] at hgap'
      have hgap1e : 1e-6 ≤ lut.length - lut.s.getD (lowerBound lut.s lut.length - 1) 0 := by
        rcases hgap' with h | h
        · linarith
        · exact h
      rw [hsidx, rmax_eq_right _ _ hgap1e, div_self (ne_of_gt hgappos)]
      rw [show ∀ a b : ℚ, a + 1 * (b - a) = b from fun a b => by ring]
      obtain ⟨j, hj, tl, htl0, htl1, hte, hpe⟩ :=
        hentry (lowerBound lut.s lut.length) (by omega)
      have hcntq : ((lut.segments.length : ℚ)) ≠ 0 := by
        exact_mod_cast Nat.pos_iff_ne_zero.1 hsegpos
      rw [hte, div_mul_cancel₀ _ hcntq]
      have hfin : ∀ res : Option Vec2,
          res = some (cubicPoint (lut.segments.getD j default) tl) → res = some PN := by
        intro res hres
        rw [hres, ← hpe]
        have hseq : lut.s.getD (lowerBound lut.s lut.length) 0 =
            lut.s.getD (lut.pt.length - 1) 0 := by
          rw [hsidx, hLlast, hslen]
        have hpp := hstall (lowerBound lut.s lut.length) (lut.pt.length - 1)
          (by omega) (by omega) hseq
        rw [hpp, hlastD]
      apply hfin
      rcases lt_or_eq_of_le htl1 with htllt | htleq
      · -- tl < 1: floor picks segment j and localT = tl
        have hfl : ⌊(j : ℚ) + tl⌋ = (j : ℤ) := by
          rw [Int.floor_eq_iff]
          constructor
          · push_cast
            linarith
          · push_cast
            linarith
        have hjle : (j : ℤ) ≤ (lut.segments.length : ℤ) - 1 := by omega
        rw [hfl, imin_eq_right _ _ hjle]
        rw [if_neg (by omega : ¬ (j : ℤ) < 0)]
        rw [show ((j : ℤ)).toNat = j by omega]
        rw [get?_eq_some_getD _ _ hj, Option.map_some']
        rw [show ((j : ℤ) : ℚ) = (j : ℚ) by push_cast; ring]
        rw [show (j : ℚ) + tl - (j : ℚ) = tl by ring]
        rw [clamp01_of_mem tl htl0 htl1]
      · -- tl = 1: floor picks segment j+1 (or the cap), adjacency closes the gap
        subst htleq
        have hfl : ⌊(j : ℚ) + 1⌋ = (j : ℤ) + 1 := by
          rw [Int.floor_add_one, Int.floor_natCast]
        rw [hfl]
        by_cases hjtop : j + 1 < lut.segments.length
        · have hmin : imin ((lut.segments.length : ℤ) - 1) ((j : ℤ) + 1) = (j : ℤ) + 1 :=
            imin_eq_right _ _ (by omega)
          rw [hmin, if_neg (by omega : ¬ (j : ℤ) + 1 < 0)]
          rw [show ((j : ℤ) + 1).toNat = j + 1 by omega]
          rw [get?_eq_some_getD _ _ hjtop, Option.map_some']
          rw [show (j : ℚ) + 1 - (((j : ℤ) + 1 : ℤ) : ℚ) = 0 by push_cast; ring]
          rw [clamp01_zero, cubicPoint_zero]
          rw [← chain_adj_getD lut.segments hadj j hjtop]
          rw [cubicPoint_one]
        · have hminL : imin ((lut.segments.length : ℤ) - 1) ((j : ℤ) + 1) =
              (lut.segments.length : ℤ) - 1 := imin_eq_left _ _ (by omega)
          have hjeq : (lut.segments.length : ℤ) - 1 = (j : ℤ) := by omega
          rw [hminL, hjeq, if_neg (by omega : ¬ (j : ℤ) < 0)]
          rw [show ((j : ℤ)).toNat = j by omega]
          rw [get?_eq_some_getD _ _ hj, Option.map_some']
          rw [show (j : ℚ) + 1 - ((j : ℤ) : ℚ) = 1 by push_cast; ring]
          rw [clamp01_one]

/-- C1 (amended): for every `CurveSpec` with at least 2 anchors,
`pointAtTime(lut, 0)` is exactly the first anchor; and `pointAtTime(lut,
86400)` is exactly the last anchor PROVIDED (a) no segment's sampling hit
the 64-point cap and (b) no consecutive arc-length gap lies strictly
between 0 and 1e-6.  Without (b) the epsilon floor `max(1e-6, s1-s0)`
distorts the interpolation weight and the endpoint is missed
(`claim_C1_cex`); without (a) the final sample is not the anchor at all. -/
theorem claim_C1 (hyp : ℚ → ℚ → ℚ) (H : HypModel hyp) (curve : CurveState)
    (h2 : 2 ≤ curve.controls.length)
    (htr : ∀ seg ∈ controlsToSegments hyp curve.controls curve.tension,
      (sampleList hyp seg 0.75 64).length ≤ 64)
    (hgap : ∀ k, k < (buildParamLUT hyp curve).s.length - 1 →
      (buildParamLUT hyp curve).s.getD (k + 1) 0 - (buildParamLUT hyp curve).s.getD k 0 = 0 ∨
      1e-6 ≤ (buildParamLUT hyp curve).s.getD (k + 1) 0 -
        (buildParamLUT hyp curve).s.getD k 0) :
    pointAtTime (buildParamLUT hyp curve) 0 = some (curve.controls.getD 0 default) ∧
    pointAtTime (buildParamLUT hyp curve) 86400 =
      some (curve.controls.getLastD default) := by
  rcases controls_destruct curve h2 with ⟨p, q, rest, hc⟩
  obtain ⟨controls, tension⟩ := curve
  have hc' : controls = p :: q :: rest := hc
  subst hc'
  simp only at htr hgap ⊢
  have hsegne : controlsToSegments hyp (p :: q :: rest) tension ≠ [] :=
    controlsToSegments_ne_nil hyp p q rest tension
  have hsne : (buildParamLUT hyp ⟨p :: q :: rest, tension⟩).s ≠ [] := by
    rw [lut_s]
    exact accumulateLengths_ne_nil hyp _
  have hptne : (buildParamLUT hyp ⟨p :: q :: rest, tension⟩).pt ≠ [] :=
    lut_pt_ne_nil hyp _ (by simp)
  have hptpos : 0 < (buildParamLUT hyp ⟨p :: q :: rest, tension⟩).pt.length :=
    List.length_pos.2 hptne
  have hslen : (buildParamLUT hyp ⟨p :: q :: rest, tension⟩).s.length =
      (buildParamLUT hyp ⟨p :: q :: rest, tension⟩).pt.length :=
    lut_s_length hyp _ (by simp)
  have hsmono := chain_le_getD_mono _ (lut_s_chain hyp H ⟨p :: q :: rest, tension⟩)
  have hs0 := lut_s_getD_zero hyp (⟨p :: q :: rest, tension⟩ : CurveState)
  have hLlast : (buildParamLUT hyp ⟨p :: q :: rest, tension⟩).length =
      (buildParamLUT hyp ⟨p :: q :: rest, tension⟩).s.getD
        ((buildParamLUT hyp ⟨p :: q :: rest, tension⟩).s.length - 1) 0 := by
    rw [lut_length]
    exact getLastD_eq_getD _ hsne
  have hptlast : (buildParamLUT hyp ⟨p :: q :: rest, tension⟩).pt.getLast? =
      some ((q :: rest).getLastD q) := lut_pt_getLast hyp p q rest tension htr
  have hpt_head : (buildParamLUT hyp ⟨p :: q :: rest, tension⟩).pt.head? = some p := by
    rcases List.exists_cons_of_ne_nil hsegne with ⟨seg, rest', hsr⟩
    have hh := controlsToSegments_head hyp p q rest tension
    rw [hsr] at hh
    simp only [List.head?_cons, Option.map_some', Option.some_inj] at hh
    rw [lut_pt]
    show ((buildLUTFrom hyp 0.75 (controlsToSegments hyp (p :: q :: rest) tension).length 0
      (controlsToSegments hyp (p :: q :: rest) tension)).map (fun e => e.2.1)).head? = some p
    rw [hsr, List.head?_map, buildLUTFrom_head]
    simp [hh]
  have hstall : ∀ j k : ℕ, j ≤ k →
      k < (buildParamLUT hyp ⟨p :: q :: rest, tension⟩).pt.length →
      (buildParamLUT hyp ⟨p :: q :: rest, tension⟩).s.getD j 0 =
        (buildParamLUT hyp ⟨p :: q :: rest, tension⟩).s.getD k 0 →
      (buildParamLUT hyp ⟨p :: q :: rest, tension⟩).pt.getD j default =
        (buildParamLUT hyp ⟨p :: q :: rest, tension⟩).pt.getD k default := by
    intro j k h1 h2' h3
    rw [lut_s] at h3
    exact accumulateLengths_stall hyp H _ j k h1 h2' h3
  have hadj : List.Chain' (fun s1 s2 => s1.p3 = s2.p0)
      (buildParamLUT hyp ⟨p :: q :: rest, tension⟩).segments := by
    rw [lut_segments]
    exact controlsToSegments_adj hyp (p :: q :: rest) tension
  have hsegpos : 0 < (buildParamLUT hyp ⟨p :: q :: rest, tension⟩).segments.length :=
    List.length_pos.2 (lut_segments_ne_nil hyp _ (by simp))
  have hentry : ∀ i, i < (buildParamLUT hyp ⟨p :: q :: rest, tension⟩).pt.length →
      ∃ j, j < (buildParamLUT hyp ⟨p :: q :: rest, tension⟩).segments.length ∧ ∃ tl : ℚ,
      0 ≤ tl ∧ tl ≤ 1 ∧
      (buildParamLUT hyp ⟨p :: q :: rest, tension⟩).t.getD i 0 =
        ((j : ℚ) + tl) /
          ((buildParamLUT hyp ⟨p :: q :: rest, tension⟩).segments.length : ℚ) ∧
      (buildParamLUT hyp ⟨p :: q :: rest, tension⟩).pt.getD i default =
        cubicPoint
          ((buildParamLUT hyp ⟨p :: q :: rest, tension⟩).segments.getD j default) tl := by
    intro i hi
    have hidxlt' : i < (buildLUTFrom hyp 0.75
        (controlsToSegments hyp (p :: q :: rest) tension).length 0
        (controlsToSegments hyp (p :: q :: rest) tension)).length := by
      rw [lut_pt] at hi
      simpa using hi
    have hemem := List.get_mem _ i hidxlt'
    rcases buildLUTFrom_mem hyp 0.75 (controlsToSegments hyp (p :: q :: rest) tension).length
      (controlsToSegments hyp (p :: q :: rest) tension) 0 _ hemem with
      ⟨j, hj, tl, htl0, htl1, he⟩
    simp only [Nat.zero_add] at he
    refine ⟨j, ?_, tl, htl0, htl1, ?_, ?_⟩
    · rw [lut_segments]
      exact hj
    · rw [lut_segments, lut_t, map_getD_of_lt _ _ _ hidxlt', he]
    · rw [lut_segments, lut_pt, map_getD_of_lt _ _ _ hidxlt', he,
        getD_eq_get _ _ hj]
  have hmain := pointAtTime_endpoints (buildParamLUT hyp ⟨p :: q :: rest, tension⟩)
    p ((q :: rest).getLastD q) hslen hptpos hsmono hs0 hLlast hpt_head hptlast hstall
    (fun k hk => hgap k (by omega)) hadj hsegpos hentry
  refine ⟨?_, ?_⟩
  · rw [hmain.1]
    simp
  · rw [hmain.2]
    have hz := List.getLast?_eq_getLast (q :: rest) (by simp)
    simp [List.getLastD_cons, List.getLastD_eq_getLast?, hz]

/-- Counterexample to the frozen C1: on the 2-anchor curve
`[(0,0), (1e-7,0)]` the whole arc length lies below the `1e-6` epsilon
floor of `max(1e-6, s1-s0)`, the interpolation weight is distorted, and the
endpoint query misses the last anchor (the source returns a point whose `x`
is still below `1e-7`). -/
theorem claim_C1_cex :
    2 ≤ ([⟨0, 0⟩, ⟨1e-7, 0⟩] : List Vec2).length ∧
    pointAtTime (buildParamLUT ratHyp ⟨[⟨0, 0⟩, ⟨1e-7, 0⟩], 1/2⟩) 86400 ≠
      some (([⟨0, 0⟩, ⟨1e-7, 0⟩] : List Vec2).getLastD default) := by
  refine ⟨by decide, fun h => ?_⟩
  have hx : ((pointAtTime (buildParamLUT ratHyp ⟨[⟨0, 0⟩, ⟨1e-7, 0⟩], 1/2⟩) 86400).getD
      default).x < 1e-7 := by
    with_unfolding_all decide
  rw [h] at hx
  simp at hx

/-- Witness for C1 on a mild two-anchor curve: both side conditions hold and
both endpoint queries return the anchors exactly. -/
theorem claim_C1_witness :
    HypModel ratHyp ∧
    (pointAtTime (buildParamLUT ratHyp ⟨[⟨0, 0⟩, ⟨100, 0⟩], 1/2⟩) 0 =
      some ((⟨[⟨0, 0⟩, ⟨100, 0⟩], 1/2⟩ : CurveState).controls.getD 0 default) ∧
    pointAtTime (buildParamLUT ratHyp ⟨[⟨0, 0⟩, ⟨100, 0⟩], 1/2⟩) 86400 =
      some ((⟨[⟨0, 0⟩, ⟨100, 0⟩], 1/2⟩ : CurveState).controls.getLastD default)) :=
  ⟨ratHyp_model,
   claim_C1 ratHyp ratHyp_model ⟨[⟨0, 0⟩, ⟨100, 0⟩], 1/2⟩ (by decide)
     (by with_unfolding_all decide) (by with_unfolding_all decide)⟩

/-! ### Claim C8: serialization round trip preserves the rendered points -/

theorem rmax_pos (a b : ℚ) (ha : 0 < a) : 0 < rmax a b := by
  rw [rmax]
  split
  · rename_i h
    linarith
  · exact ha

theorem imin_nonneg (a b : ℤ) (ha : 0 ≤ a) (hb : 0 ≤ b) : 0 ≤ imin a b := by
  rw [imin]
  split
  · exact ha
  · exact hb

theorem imin_le_left (a b : ℤ) : imin a b ≤ a := by
  rw [imin]
  split
  · exact le_refl a
  · rename_i h
    omega

/-- `pointAtTime` is total on any table with the structural invariants of
`buildParamLUT`: some sample point is always returned and the segment lookup
stays in bounds.  In the interpolation branch the weight `w` is positive (the
binary search guarantees `s[idx-1] < targetS`), so `g ≥ t[idx-1] ≥ 0` and the
clamped segment index lies in `[0, segments.length)`. -/
theorem pointAtTime_total (lut : LUT)
    (hslen : lut.s.length = lut.pt.length)
    (htlen : lut.t.length = lut.pt.length)
    (hptpos : 0 < lut.pt.length)
    (hsegpos : 0 < lut.segments.length)
    (hsmono : ∀ a b : ℕ, a ≤ b → b < lut.s.length → lut.s.getD a 0 ≤ lut.s.getD b 0)
    (htmono : ∀ a b : ℕ, a ≤ b → b < lut.t.length → lut.t.getD a 0 ≤ lut.t.getD b 0)
    (ht0 : lut.t.getD 0 0 = 0)
    (time : ℚ) :
    ∃ v, pointAtTime lut time = some v := by
  simp only [pointAtTime]
  obtain ⟨hle, hbelow, hat⟩ :=
    lowerBound_spec lut.s (clamp01 (time / 86400) * lut.length) hsmono
  by_cases h0 : lowerBound lut.s (clamp01 (time / 86400) * lut.length) = 0
  · rw [h0, if_pos rfl]
    exact ⟨_, get?_eq_some_getD _ _ (by omega)⟩
  · rw [if_neg h0]
    by_cases hN : lut.s.length ≤ lowerBound lut.s (clamp01 (time / 86400) * lut.length)
    · rw [if_pos hN]
      exact ⟨_, get?_eq_some_getD _ _ (by omega)⟩
    · rw [if_neg hN]
      push_neg at hN
      have hidxpos : 0 < lowerBound lut.s (clamp01 (time / 86400) * lut.length) :=
        Nat.pos_of_ne_zero h0
      set L := clamp01 (time / 86400) * lut.length with hLdef
      set idx := lowerBound lut.s L with hidxdef
      set t0 := lut.t.getD (idx - 1) 0 with ht0def
      set t1 := lut.t.getD idx 0 with ht1def
      set s0 := lut.s.getD (idx - 1) 0 with hs0def
      set s1 := lut.s.getD idx 0 with hs1def
      set w := (L - s0) / rmax 1e-6 (s1 - s0) with hwdef
      set g := t0 + w * (t1 - t0) with hgdef
      have hnum : lut.s.getD (idx - 1) 0 < L := hbelow _ (by omega)
      have hw : 0 < w := by
        rw [hwdef]
        refine div_pos ?_ (rmax_pos _ _ (by norm_num))
        rw [hs0def]
        linarith
      have ht0le : 0 ≤ t0 := by
        rw [ht0def]
        have h := htmono 0 (idx - 1) (by omega) (by omega)
        rw [ht0] at h
        exact h
      have ht01 : t0 ≤ t1 := by
        rw [ht0def, ht1def]
        exact htmono _ _ (by omega) (by omega)
      have hg0 : 0 ≤ g := by
        rw [hgdef]
        have hm := mul_nonneg (le_of_lt hw) (sub_nonneg.2 ht01)
        linarith
      have hfloor : 0 ≤ ⌊g * (lut.segments.length : ℚ)⌋ :=
        Int.floor_nonneg.2 (mul_nonneg hg0 (Nat.cast_nonneg _))
      have hseg0 : 0 ≤ imin ((lut.segments.length : ℤ) - 1) ⌊g * (lut.segments.length : ℚ)⌋ :=
        imin_nonneg _ _ (by omega) hfloor
      have hsegle :=
        imin_le_left ((lut.segments.length : ℤ) - 1) ⌊g * (lut.segments.length : ℚ)⌋
      rw [if_neg (not_lt.2 hseg0)]
      rw [get?_eq_some_getD _ _ (by omega :
        (imin ((lut.segments.length : ℤ) - 1) ⌊g * (lut.segments.length : ℚ)⌋).toNat <
          lut.segments.length), Option.map_some']
      exact ⟨_, rfl⟩

/-- `pointAtTime` totality, instantiated at the table built from any curve
with at least 2 anchors. -/
theorem pointAtTime_total_build (hyp : ℚ → ℚ → ℚ) (H : HypModel hyp) (curve : CurveState)
    (h2 : 2 ≤ curve.controls.length) (time : ℚ) :
    ∃ v, pointAtTime (buildParamLUT hyp curve) time = some v := by
  apply pointAtTime_total
  · exact lut_s_length hyp curve h2
  · exact (lut_lengths_align hyp curve).1
  · exact List.length_pos.2 (lut_pt_ne_nil hyp curve h2)
  · exact List.length_pos.2 (lut_segments_ne_nil hyp curve h2)
  · exact chain_le_getD_mono _ (lut_s_chain hyp H curve)
  · exact chain_le_getD_mono _ (lut_t_chain hyp curve)
  · exact head_getD_zero _ _ (lut_t_head hyp curve h2)

/-- `JSON.parse ∘ JSON.stringify` on the persisted `{curve, nodes}` value is
the identity: every field survives the flattening to plain data. -/
theorem decode_encode (st : PersistedState) : decodeState (encodeState st) = st := by
  obtain ⟨⟨controls, tension⟩, nodes⟩ := st
  have hmap : ∀ l : List Vec2,
      (l.map fun p => (p.x, p.y)).map (fun q : ℚ × ℚ => (⟨q.1, q.2⟩ : Vec2)) = l := by
    intro l
    induction l with
    | nil => rfl
    | cons x xs ih => simp [ih]
  have hmapn : ∀ l : List NodeModel,
      (l.map fun n => (n.id, n.time, n.label, n.icon, n.color)).map
        (fun n : String × ℚ × String × String × String =>
          (⟨n.1, n.2.1, n.2.2.1, n.2.2.2.1, n.2.2.2.2⟩ : NodeModel)) = l := by
    intro l
    induction l with
    | nil => rfl
    | cons x xs ih => simp [ih]
  simp only [encodeState, decodeState]
  rw [hmap, hmapn]

/-- C8 (confirmed): for the serialization-test fixture (anchors
`(12,220),(200,60),(420,260),(780,140)`, tension `0.42`, node times
`{123, 4567, 80321}`), round-tripping `{curve, nodes}` through the plain-data
form is the identity, so the rebuilt table equals the original and
`pointAtTime` at each stored time returns the same point, at coordinate
distance `hyp 0 0 = 0 ≤ 1`. -/
theorem claim_C8 (hyp : ℚ → ℚ → ℚ) (H : HypModel hyp) (st : PersistedState)
    (hcurve : st.curve = ⟨[⟨12, 220⟩, ⟨200, 60⟩, ⟨420, 260⟩, ⟨780, 140⟩], 0.42⟩)
    (hnodes : st.nodes.map NodeModel.time = [123, 4567, 80321]) :
    decodeState (encodeState st) = st ∧
    ∀ n ∈ st.nodes, ∃ a b : Vec2,
      pointAtTime (buildParamLUT hyp st.curve) n.time = some a ∧
      pointAtTime (buildParamLUT hyp (decodeState (encodeState st)).curve) n.time = some b ∧
      hyp (a.x - b.x) (a.y - b.y) ≤ 1 := by
  have hid := decode_encode st
  refine ⟨hid, ?_⟩
  intro n hn
  have h2 : 2 ≤ st.curve.controls.length := by
    rw [hcurve]
    decide
  obtain ⟨a, ha⟩ := pointAtTime_total_build hyp H st.curve h2 n.time
  refine ⟨a, a, ha, ?_, ?_⟩
  · rw [hid]
    exact ha
  · rw [sub_self, sub_self, (H.eq_zero_iff 0 0).2 ⟨rfl, rfl⟩]
    norm_num

/-- Witness for C8 at the concrete test fixture with the computable hypot
model. -/
theorem claim_C8_witness :
    decodeState (encodeState ⟨⟨[⟨12, 220⟩, ⟨200, 60⟩, ⟨420, 260⟩, ⟨780, 140⟩], 0.42⟩,
      [⟨"n1", 123, "N1", "a", "#000"⟩, ⟨"n2", 4567, "N2", "b", "#111"⟩,
       ⟨"n3", 80321, "N3", "c", "#222"⟩]⟩) =
      ⟨⟨[⟨12, 220⟩, ⟨200, 60⟩, ⟨420, 260⟩, ⟨780, 140⟩], 0.42⟩,
      [⟨"n1", 123, "N1", "a", "#000"⟩, ⟨"n2", 4567, "N2", "b", "#111"⟩,
       ⟨"n3", 80321, "N3", "c", "#222"⟩]⟩ ∧
    ∀ n ∈ (⟨⟨[⟨12, 220⟩, ⟨200, 60⟩, ⟨420, 260⟩, ⟨780, 140⟩], 0.42⟩,
      [⟨"n1", 123, "N1", "a", "#000"⟩, ⟨"n2", 4567, "N2", "b", "#111"⟩,
       ⟨"n3", 80321, "N3", "c", "#222"⟩]⟩ : PersistedState).nodes, ∃ a b : Vec2,
      pointAtTime (buildParamLUT ratHyp
        (⟨⟨[⟨12, 220⟩, ⟨200, 60⟩, ⟨420, 260⟩, ⟨780, 140⟩], 0.42⟩,
        [⟨"n1", 123, "N1", "a", "#000"⟩, ⟨"n2", 4567, "N2", "b", "#111"⟩,
         ⟨"n3", 80321, "N3", "c", "#222"⟩]⟩ : PersistedState).curve) n.time = some a ∧
      pointAtTime (buildParamLUT ratHyp
        (decodeState (encodeState ⟨⟨[⟨12, 220⟩, ⟨200, 60⟩, ⟨420, 260⟩, ⟨780, 140⟩], 0.42⟩,
        [⟨"n1", 123, "N1", "a", "#000"⟩, ⟨"n2", 4567, "N2", "b", "#111"⟩,
         ⟨"n3", 80321, "N3", "c", "#222"⟩]⟩)).curve) n.time = some b ∧
      ratHyp (a.x - b.x) (a.y - b.y) ≤ 1 :=
  claim_C8 ratHyp ratHyp_model
    ⟨⟨[⟨12, 220⟩, ⟨200, 60⟩, ⟨420, 260⟩, ⟨780, 140⟩], 0.42⟩,
      [⟨"n1", 123, "N1", "a", "#000"⟩, ⟨"n2", 4567, "N2", "b", "#111"⟩,
       ⟨"n3", 80321, "N3", "c", "#222"⟩]⟩ rfl rfl

end CurveKit
